import Mathlib

/-!
Verification of the AttendanceAPI attendance-ingestion pipeline.

This file shallowly embeds the parts of the source that the checked claims
are about: the SHA-256 record fingerprints (`crypto.createHash('sha256')`
as used by the two `generateRecordHash` functions), the SQLite-backed
`CacheService` queue (`record_hashes` and `attendance_queue` tables), the
`/attendance/clock` and `/attendance/batch` route handlers, the
`erpnextService.safePost` retry loop, the `SyncService` drain scheduler,
the `SessionManager` concurrent-session logic, and the rotating-secret JWT
`verify` helper.  Machine integers are modelled as `Nat` with explicit
`% 2^32` where the source relies on 32-bit wrap-around; fallible storage
operations return `Except`.
-/

namespace AttendanceAPI

/-! ## SHA-256

A complete executable SHA-256 over byte lists (bytes are `Nat < 256`,
words are `Nat < 2^32`, all word arithmetic is reduced `% 2^32`).  This is
the `crypto.createHash('sha256').update(s).digest('hex')` call both
`generateRecordHash` implementations make; strings are fed through UTF-8.
All recursion is structural so that concrete digests evaluate by `decide`.
-/

/-- Truncate to a 32-bit word. -/
def w32 (n : Nat) : Nat := n % 4294967296

/-- 32-bit right-rotation by `n` bits. -/
def rotr (n x : Nat) : Nat := w32 ((x >>> n) ||| (x <<< (32 - n)))

/-- SHA-256 `Ch` function (the complement is taken against the 32-bit mask). -/
def ch (x y z : Nat) : Nat := (x &&& y) ^^^ ((x ^^^ 4294967295) &&& z)

/-- SHA-256 `Maj` function. -/
def maj (x y z : Nat) : Nat := (x &&& y) ^^^ (x &&& z) ^^^ (y &&& z)

/-- SHA-256 big sigma 0. -/
def bigSigma0 (x : Nat) : Nat := rotr 2 x ^^^ rotr 13 x ^^^ rotr 22 x

/-- SHA-256 big sigma 1. -/
def bigSigma1 (x : Nat) : Nat := rotr 6 x ^^^ rotr 11 x ^^^ rotr 25 x

/-- SHA-256 small sigma 0. -/
def smallSigma0 (x : Nat) : Nat := rotr 7 x ^^^ rotr 18 x ^^^ (x >>> 3)

/-- SHA-256 small sigma 1. -/
def smallSigma1 (x : Nat) : Nat := rotr 17 x ^^^ rotr 19 x ^^^ (x >>> 10)

/-- The 64 SHA-256 round constants. -/
def sha256K : List Nat :=
  [1116352408, 1899447441, 3049323471, 3921009573, 961987163,
   1508970993, 2453635748, 2870763221, 3624381080, 310598401,
   607225278, 1426881987, 1925078388, 2162078206, 2614888103,
   3248222580, 3835390401, 4022224774, 264347078, 604807628,
   770255983, 1249150122, 1555081692, 1996064986, 2554220882,
   2821834349, 2952996808, 3210313671, 3336571891, 3584528711,
   113926993, 338241895, 666307205, 773529912, 1294757372,
   1396182291, 1695183700, 1986661051, 2177026350, 2456956037,
   2730485921, 2820302411, 3259730800, 3345764771, 3516065817,
   3600352804, 4094571909, 275423344, 430227734, 506948616,
   659060556, 883997877, 958139571, 1322822218, 1537002063,
   1747873779, 1955562222, 2024104815, 2227730452, 2361852424,
   2428436474, 2756734187, 3204031479, 3329325298]

/-- The SHA-256 initial hash value. -/
def sha256H0 : List Nat :=
  [1779033703, 3144134277, 1013904242, 2773480762,
   1359893119, 2600822924, 528734635, 1541459225]

/-- The next message-schedule word from the last sixteen already produced. -/
def nextW (ws : List Nat) : Nat :=
  let n := ws.length
  w32 (smallSigma1 (ws.getD (n - 2) 0) + ws.getD (n - 7) 0 +
       smallSigma0 (ws.getD (n - 15) 0) + ws.getD (n - 16) 0)

/-- Extend a 16-word block by `k` further schedule words. -/
def extendW (ws : List Nat) : Nat → List Nat
  | 0 => ws
  | k + 1 => extendW (ws ++ [nextW ws]) k

/-- One SHA-256 round on the `[a,b,c,d,e,f,g,h]` working state. -/
def sha256Round (st : List Nat) (ki wi : Nat) : List Nat :=
  match st with
  | [a, b, c, d, e, f, g, h] =>
    let t1 := w32 (h + bigSigma1 e + ch e f g + ki + wi)
    let t2 := w32 (bigSigma0 a + maj a b c)
    [w32 (t1 + t2), a, b, c, w32 (d + t1), e, f, g]
  | other => other

/-- Compress one 16-word block into the running hash value. -/
def compressBlock (hs block : List Nat) : List Nat :=
  let ws := extendW block 48
  let final := (sha256K.zip ws).foldl (fun st kw => sha256Round st kw.1 kw.2) hs
  List.zipWith (fun x y => w32 (x + y)) hs final

/-- Big-endian 4-byte groups to 32-bit words. -/
def bytesToWords : List Nat → List Nat
  | b1 :: b2 :: b3 :: b4 :: rest =>
    (((b1 * 256 + b2) * 256 + b3) * 256 + b4) :: bytesToWords rest
  | _ => []

/-- Split a word list into 16-word blocks (fuel-driven so it reduces). -/
def toBlocksFuel : Nat → List Nat → List (List Nat)
  | 0, _ => []
  | _, [] => []
  | k + 1, l => l.take 16 :: toBlocksFuel k (l.drop 16)

/-- SHA-256 message padding: `0x80`, zeros to 56 mod 64, 8-byte bit length. -/
def sha256Pad (msg : List Nat) : List Nat :=
  let r := (msg.length + 1) % 64
  let k := (120 - r) % 64
  let bitLen := msg.length * 8
  msg ++ [128] ++ List.replicate k 0 ++
    (List.range 8).map (fun i => (bitLen >>> (56 - 8 * i)) % 256)

/-- SHA-256 of a byte list, as the eight final hash words. -/
def sha256Words (msg : List Nat) : List Nat :=
  let ws := bytesToWords (sha256Pad msg)
  (toBlocksFuel (ws.length / 16 + 1) ws).foldl compressBlock sha256H0

/-- A 32-bit word as four big-endian bytes. -/
def wordBytes (w : Nat) : List Nat :=
  [(w >>> 24) % 256, (w >>> 16) % 256, (w >>> 8) % 256, w % 256]

/-- Lowercase hex digit. -/
def hexChar (n : Nat) : Char :=
  if n < 10 then Char.ofNat (48 + n) else Char.ofNat (87 + n)

/-- Lowercase hex string of a byte list (Node's `digest('hex')`). -/
def hexOfBytes (bs : List Nat) : String :=
  String.mk (bs.flatMap (fun b => [hexChar (b / 16), hexChar (b % 16)]))

/-- UTF-8 encoding of one character (code point to bytes). -/
def utf8Char (c : Char) : List Nat :=
  let n := c.toNat
  if n < 128 then [n]
  else if n < 2048 then [192 + n / 64, 128 + n % 64]
  else if n < 65536 then [224 + n / 4096, 128 + (n / 64) % 64, 128 + n % 64]
  else [240 + n / 262144, 128 + (n / 4096) % 64, 128 + (n / 64) % 64, 128 + n % 64]

/-- UTF-8 bytes of a string (the encoding `crypto`'s `update` applies). -/
def utf8Bytes (s : String) : List Nat := s.data.flatMap utf8Char

/-- `crypto.createHash('sha256').update(s).digest('hex')`. -/
def sha256Hex (s : String) : String :=
  hexOfBytes ((sha256Words (utf8Bytes s)).flatMap wordBytes)

/-- FIPS 180-2 test vector: the implementation is the real SHA-256. -/
theorem sha256Hex_abc :
    sha256Hex "abc" =
      "ba7816bf8f01cfea414140de5dae2223b00361a396177a9cb410ff61f20015ad" := by
  decide

/-! ## Attendance records and the two fingerprint implementations

`src/routes/devices.js` defines a local `generateRecordHash` joining
`employee_id`, `timestamp`, `status` and `device_id || 'default'` with
`-`; `CacheService.generateRecordHash` (src/unnamed/part_006) is identical
except that the fallback for a missing `device_id` is `''`.  JavaScript's
`||` falls through on the empty string as well as on `undefined`/`null`,
which `jsOrStr` mirrors.
-/

/-- An inbound attendance record as validated by the `/clock` and `/batch`
routes.  Optional JSON fields are `Option`; numbers are irrelevant to the
fingerprint and modelled as `Int`. -/
structure AttRecord where
  employee_id : String
  timestamp : String
  status : String
  device_id : Option String := none
  site_id : Option String := none
  latitude : Option Int := none
  longitude : Option Int := none
  record_id : Option String := none
deriving DecidableEq

/-- JavaScript `v || alt` on an optional string: falls through when the
value is absent or the empty string (both are falsy). -/
def jsOrStr (v : Option String) (alt : String) : String :=
  match v with
  | none => alt
  | some s => if s = "" then alt else s

namespace DevicesRoute

/-- The hash input built by `generateRecordHash` in `src/routes/devices.js`:
`` `${record.employee_id}-${record.timestamp}-${record.status}-${record.device_id || 'default'}` ``. -/
def hashString (r : AttRecord) : String :=
  r.employee_id ++ "-" ++ r.timestamp ++ "-" ++ r.status ++ "-" ++
    jsOrStr r.device_id "default"

/-- `generateRecordHash` from `src/routes/devices.js`. -/
def generateRecordHash (r : AttRecord) : String :=
  sha256Hex (hashString r)

end DevicesRoute

namespace CacheService

/-- The hash input built by `CacheService.generateRecordHash`:
`` `${recordData.employee_id}-${recordData.timestamp}-${recordData.status}-${recordData.device_id || ''}` ``. -/
def hashString (r : AttRecord) : String :=
  r.employee_id ++ "-" ++ r.timestamp ++ "-" ++ r.status ++ "-" ++
    jsOrStr r.device_id ""

/-- `CacheService.generateRecordHash` from src/unnamed/part_006. -/
def generateRecordHash (r : AttRecord) : String :=
  sha256Hex (hashString r)

end CacheService

/-- Claim C3 (counterexample): the fingerprint is not injective on the
normalized fields, and equal instants do not get equal fingerprints.
First conjunct: two records that differ in `employee_id` (hence in any
normalization that keeps `employee_id`) share a fingerprint, because the
`-` separator also occurs inside the fields, so the concatenations
coincide.  Last conjunct: two records identical except that the timestamp
is written `...Z` versus `...+00:00` — the same canonical UTC instant at
second precision — get different fingerprints, because the raw timestamp
string is hashed without canonicalization. -/
theorem c3_counterexample :
    CacheService.generateRecordHash
        { employee_id := "A", timestamp := "2024-06-10T08:30:00Z",
          status := "clock-in",
          device_id := some "X-2024-06-11T09:00:00Z-clock-in-D" } =
      CacheService.generateRecordHash
        { employee_id := "A-2024-06-10T08:30:00Z-clock-in-X",
          timestamp := "2024-06-11T09:00:00Z", status := "clock-in",
          device_id := some "D" } ∧
    ("A" : String) ≠ "A-2024-06-10T08:30:00Z-clock-in-X" ∧
    CacheService.generateRecordHash
        { employee_id := "E1", timestamp := "2024-06-10T08:30:00Z",
          status := "clock-in", device_id := some "D1" } ≠
      CacheService.generateRecordHash
        { employee_id := "E1", timestamp := "2024-06-10T08:30:00+00:00",
          status := "clock-in", device_id := some "D1" } := by
  refine ⟨?_, by decide, by decide⟩
  decide

/-- Claim C3 (amended): the fingerprint is SHA-256 of the raw
`employee_id`, raw `timestamp` string, `kind`, and `device_id` (empty
string when absent or empty) joined with `-`; records that agree on those
four raw fields get equal fingerprints (in particular the fingerprint
ignores `site_id`, coordinates and every other field).  The converse
direction of the original claim fails (see the counterexample). -/
theorem c3_amended_raw_field_congruence (e e' : AttRecord)
    (h1 : e.employee_id = e'.employee_id) (h2 : e.timestamp = e'.timestamp)
    (h3 : e.status = e'.status)
    (h4 : jsOrStr e.device_id "" = jsOrStr e'.device_id "") :
    CacheService.generateRecordHash e = CacheService.generateRecordHash e' := by
  simp only [CacheService.generateRecordHash, CacheService.hashString,
    h1, h2, h3, h4]

/-- Concrete instance of the amended C3 theorem: a record with
`device_id := some ""` and a site differs from one with no `device_id`
and no site only in fingerprint-ignored ways, so the fingerprints agree. -/
theorem c3_witness :
    CacheService.generateRecordHash
        { employee_id := "E1", timestamp := "2024-06-10T08:30:00Z",
          status := "clock-in", device_id := some "",
          site_id := some "S1", latitude := some 1 } =
      CacheService.generateRecordHash
        { employee_id := "E1", timestamp := "2024-06-10T08:30:00Z",
          status := "clock-in", device_id := none } :=
  c3_amended_raw_field_congruence _ _ rfl rfl rfl (by decide)

/-- Claim C10 (counterexample): on a record with no `device_id` the two
`generateRecordHash` implementations hash different strings
(`...-default` versus `...-`) and so produce different digests. -/
theorem c10_counterexample :
    DevicesRoute.generateRecordHash
        { employee_id := "EMP-001", timestamp := "2024-06-10T08:30:00Z",
          status := "clock-in" } ≠
      CacheService.generateRecordHash
        { employee_id := "EMP-001", timestamp := "2024-06-10T08:30:00Z",
          status := "clock-in" } := by
  decide

/-- Claim C10 (amended): the two fingerprint implementations agree exactly
on records whose `device_id` is present and non-empty; only the fallback
for an absent (or empty, which JavaScript `||` treats the same) device
differs between them. -/
theorem c10_amended_agree_on_present_device (r : AttRecord) (d : String)
    (hd : r.device_id = some d) (hne : d ≠ "") :
    DevicesRoute.generateRecordHash r = CacheService.generateRecordHash r := by
  simp only [DevicesRoute.generateRecordHash, DevicesRoute.hashString,
    CacheService.generateRecordHash, CacheService.hashString, jsOrStr, hd,
    if_neg hne]

/-- Concrete instance of the amended C10 theorem at a record whose
`device_id` is the non-empty string `"D1"`. -/
theorem c10_witness :
    (({ employee_id := "EMP-001", timestamp := "2024-06-10T08:30:00Z",
        status := "clock-in", device_id := some "D1" } : AttRecord).device_id
        = some "D1") ∧
    ("D1" : String) ≠ "" ∧
    DevicesRoute.generateRecordHash
        { employee_id := "EMP-001", timestamp := "2024-06-10T08:30:00Z",
          status := "clock-in", device_id := some "D1" } =
      CacheService.generateRecordHash
        { employee_id := "EMP-001", timestamp := "2024-06-10T08:30:00Z",
          status := "clock-in", device_id := some "D1" } :=
  ⟨rfl, by decide, c10_amended_agree_on_present_device _ "D1" rfl (by decide)⟩

/-! ## The CacheService store

src/unnamed/part_006 keeps two SQLite tables the claims are about:
`record_hashes` (primary key `record_hash`, the idempotency store) and
`attendance_queue` (`AUTOINCREMENT` id, `record_hash` UNIQUE, the offline
queue).  Rows are modelled in insertion order; timestamps are `Nat`
(milliseconds); `INSERT OR REPLACE` and the `UNIQUE` constraint are
modelled exactly.
-/

/-- A `record_hashes` row (minus the key, which indexes the list). -/
structure RHEntry where
  record_data : AttRecord
  is_synced : Bool
  synced_at : Option Nat
  batch_id : Option String
deriving DecidableEq

/-- An `attendance_queue` row. -/
structure QueueRow where
  id : Nat
  employee_id : String
  timestamp : String
  status : String
  site_id : Option String
  device_id : Option String
  latitude : Option Int
  longitude : Option Int
  record_hash : String
  batch_id : Option String
  retry_count : Nat
  last_retry : Option Nat
  synced : Bool
  synced_at : Option Nat
  error_message : Option String
deriving DecidableEq

/-- The cache database: both tables plus the `AUTOINCREMENT` counter. -/
structure CacheDb where
  record_hashes : List (String × RHEntry)
  attendance_queue : List QueueRow
  nextId : Nat
deriving DecidableEq

/-- A freshly created cache database. -/
def CacheDb.init : CacheDb :=
  { record_hashes := [], attendance_queue := [], nextId := 1 }

/-- JavaScript truthiness of an optional string (`if (recordHash)`),
false on absence and on the empty string. -/
def jsTruthy (v : Option String) : Bool :=
  match v with
  | none => false
  | some s => !(s = "")

/-- JavaScript `v || null` on an optional string column value: the empty
string is coerced to NULL. -/
def jsOrNullStr (v : Option String) : Option String :=
  match v with
  | none => none
  | some s => if s = "" then none else some s

/-- JavaScript `v || null` on an optional numeric column value: 0 is
coerced to NULL. -/
def jsOrNullInt (v : Option Int) : Option Int :=
  match v with
  | none => none
  | some n => if n = 0 then none else some n

/-- Storage-layer failure: the only one the claims exercise is the
`UNIQUE constraint failed` error SQLite raises on a duplicate
`record_hash` insert. -/
inductive StorageErr
  | uniqueConstraint
deriving DecidableEq

namespace CacheService

/-- `CacheService.checkDuplicateRecord`:
`SELECT * FROM record_hashes WHERE record_hash = ?`. -/
def checkDuplicateRecord (db : CacheDb) (hash : String) : Option RHEntry :=
  (db.record_hashes.find? (fun p => p.1 = hash)).map (·.2)

/-- `CacheService.storeRecordHash`: `INSERT OR REPLACE INTO record_hashes`;
`synced_at` is the current time when `isSynced`, else NULL. -/
def storeRecordHash (db : CacheDb) (hash : String) (record : AttRecord)
    (isSynced : Bool) (batchId : Option String) (now : Nat) : CacheDb :=
  { db with
    record_hashes :=
      (hash, { record_data := record, is_synced := isSynced,
               synced_at := if isSynced then some now else none,
               batch_id := batchId }) ::
        db.record_hashes.filter (fun p => !(p.1 = hash)) }

/-- The argument object of `queueAttendance`: the spread record plus the
optional `record_hash` and `batch_id` the routes add. -/
structure QueueInput where
  record : AttRecord
  record_hash : Option String := none
  batch_id : Option String := none

/-- The hash `queueAttendance` uses: the provided `record_hash`, or (when
absent or empty — JavaScript `if (!attendanceData.record_hash)`) its own
`generateRecordHash` of the record. -/
def queueInputHash (inp : QueueInput) : String :=
  jsOrStr inp.record_hash (generateRecordHash inp.record)

/-- The row `queueAttendance` inserts: the record's columns (with the
JavaScript `|| null` coercions), a fresh `AUTOINCREMENT` id, and the
pending defaults `synced = 0`, `retry_count = 0`. -/
def newQueueRow (db : CacheDb) (inp : QueueInput) : QueueRow :=
  { id := db.nextId,
    employee_id := inp.record.employee_id,
    timestamp := inp.record.timestamp,
    status := inp.record.status,
    site_id := jsOrNullStr inp.record.site_id,
    device_id := jsOrNullStr inp.record.device_id,
    latitude := jsOrNullInt inp.record.latitude,
    longitude := jsOrNullInt inp.record.longitude,
    record_hash := queueInputHash inp,
    batch_id := jsOrNullStr inp.batch_id,
    retry_count := 0, last_retry := none,
    synced := false, synced_at := none, error_message := none }

/-- `CacheService.queueAttendance`: a plain `INSERT INTO attendance_queue`.
The UNIQUE index on `record_hash` makes the insert fail when a row with
the same hash exists; otherwise a pending row is appended and its new id
returned. -/
def queueAttendance (db : CacheDb) (inp : QueueInput) :
    Except StorageErr (Nat × CacheDb) :=
  if db.attendance_queue.any (fun row => row.record_hash = queueInputHash inp) then
    .error .uniqueConstraint
  else
    .ok (db.nextId,
      { db with
        attendance_queue := db.attendance_queue ++ [newQueueRow db inp],
        nextId := db.nextId + 1 })

/-- `CacheService.markAttendanceSynced`: an unconditional
`UPDATE attendance_queue SET synced = 1, synced_at = ? WHERE id = ?`,
followed — only when a truthy `recordHash` argument is given — by the same
unconditional update of `record_hashes`.  No source-state check is made
anywhere. -/
def markAttendanceSynced (db : CacheDb) (id : Nat)
    (recordHash : Option String) (now : Nat) : CacheDb :=
  { db with
    attendance_queue := db.attendance_queue.map (fun row =>
      if row.id = id then { row with synced := true, synced_at := some now }
      else row),
    record_hashes :=
      if jsTruthy recordHash then
        db.record_hashes.map (fun p =>
          if p.1 = recordHash.getD "" then
            (p.1, { p.2 with is_synced := true, synced_at := some now })
          else p)
      else db.record_hashes }

/-- `CacheService.markAttendanceFailed`: increments `retry_count`, stores
the error message and the retry time on the matching row. -/
def markAttendanceFailed (db : CacheDb) (id : Nat) (err : String)
    (now : Nat) : CacheDb :=
  { db with
    attendance_queue := db.attendance_queue.map (fun row =>
      if row.id = id then
        { row with retry_count := row.retry_count + 1,
                   last_retry := some now, error_message := some err }
      else row) }

end CacheService

/-! ## The ingestion routes

The `/attendance/clock` and `/attendance/batch` handlers of
src/routes/devices.js (second file in that path).  Both compute
`record.record_id || generateRecordHash(record)` with the route-local
hash, consult `checkDuplicateRecord`, and only on a miss call the
upstream (`erpnext.submitCheckin`) — whose outcome is an oracle `Bool`
here — storing the hash as synced on success, or enqueueing and storing
it unsynced on failure.  `batch` can also be forced offline, skipping the
upstream call.  Each upstream call is logged as `(hash, outcome)`.
-/

/-- Per-record outcome reported by the routes. -/
inductive RecStatus
  | duplicate
  | syncedOk
  | queued
  | errorStatus
deriving DecidableEq

/-- The effective record id used by both routes:
`record.record_id || generateRecordHash(record)` (route-local hash). -/
def hashOf (r : AttRecord) : String :=
  jsOrStr r.record_id (DevicesRoute.generateRecordHash r)

/-- The `/attendance/clock` handler body (src/routes/devices.js lines
146–210): duplicate check, direct upstream attempt, then either
`storeRecordHash(h, record, true)` or `queueAttendance` +
`storeRecordHash(h, record, false)`.  Returns the new database, the
response status, and the upstream calls made. -/
def clockHandler (db : CacheDb) (r : AttRecord) (upstreamOk : Bool)
    (now : Nat) : CacheDb × RecStatus × List (String × Bool) :=
  match CacheService.checkDuplicateRecord db (hashOf r) with
  | some _ => (db, .duplicate, [])
  | none =>
    if upstreamOk then
      (CacheService.storeRecordHash db (hashOf r) r true none now, .syncedOk,
        [(hashOf r, true)])
    else
      match CacheService.queueAttendance db
          { record := r, record_hash := some (hashOf r) } with
      | .error _ => (db, .errorStatus, [(hashOf r, false)])
      | .ok (_, db') =>
        (CacheService.storeRecordHash db' (hashOf r) r false none now, .queued,
          [(hashOf r, false)])

/-- One iteration of the `/attendance/batch` loop for a single record:
like `clockHandler` but with the batch id on the queued row and an
`offline_sync` mode that skips the upstream attempt. -/
def batchOne (db : CacheDb) (r : AttRecord) (batchId : String)
    (offline : Bool) (upstreamOk : Bool) (now : Nat) :
    CacheDb × RecStatus × List (String × Bool) :=
  match CacheService.checkDuplicateRecord db (hashOf r) with
  | some _ => (db, .duplicate, [])
  | none =>
    if offline then
      match CacheService.queueAttendance db
          { record := r, record_hash := some (hashOf r),
            batch_id := some batchId } with
      | .error _ => (db, .errorStatus, [])
      | .ok (_, db') =>
        (CacheService.storeRecordHash db' (hashOf r) r false none now, .queued, [])
    else if upstreamOk then
      (CacheService.storeRecordHash db (hashOf r) r true none now, .syncedOk,
        [(hashOf r, true)])
    else
      match CacheService.queueAttendance db
          { record := r, record_hash := some (hashOf r),
            batch_id := some batchId } with
      | .error _ => (db, .errorStatus, [(hashOf r, false)])
      | .ok (_, db') =>
        (CacheService.storeRecordHash db' (hashOf r) r false none now, .queued,
          [(hashOf r, false)])

/-- The `/attendance/batch` loop over its records, each paired with its
upstream oracle; returns per-record statuses in input order and the
concatenated upstream call log. -/
def batchRun (db : CacheDb) (rs : List (AttRecord × Bool)) (batchId : String)
    (offline : Bool) (now : Nat) :
    CacheDb × List RecStatus × List (String × Bool) :=
  match rs with
  | [] => (db, [], [])
  | (r, ok) :: rest =>
    let s1 := batchOne db r batchId offline ok now
    let s2 := batchRun s1.1 rest batchId offline now
    (s2.1, s1.2.1 :: s2.2.1, s1.2.2 ++ s2.2.2)

/-- An inbound ingestion request: one clock submission or one batch. -/
inductive IngestOp
  | clock (r : AttRecord) (upstreamOk : Bool) (now : Nat)
  | batch (rs : List (AttRecord × Bool)) (batchId : String) (offline : Bool)
      (now : Nat)

/-- Process one request against the store. -/
def applyOp (db : CacheDb) : IngestOp → CacheDb × List RecStatus × List (String × Bool)
  | .clock r ok now =>
    let s := clockHandler db r ok now
    (s.1, [s.2.1], s.2.2)
  | .batch rs bid off now => batchRun db rs bid off now

/-- Process a sequence of requests, collecting the upstream call log. -/
def runOps (db : CacheDb) : List IngestOp → CacheDb × List (String × Bool)
  | [] => (db, [])
  | op :: rest =>
    let s := applyOp db op
    let s' := runOps s.1 rest
    (s'.1, s.2.2 ++ s'.2)

/-- Number of `record_hashes` rows keyed by `fp`. -/
def rhCount (db : CacheDb) (fp : String) : Nat :=
  (db.record_hashes.filter (fun p => p.1 = fp)).length

/-- Number of `attendance_queue` rows whose `record_hash` is `fp`. -/
def queueCount (db : CacheDb) (fp : String) : Nat :=
  (db.attendance_queue.filter (fun row => row.record_hash = fp)).length

/-- Number of upstream calls in a call log made for fingerprint `fp`. -/
def callCount (cs : List (String × Bool)) (fp : String) : Nat :=
  (cs.filter (fun c => c.1 = fp)).length

/-- Number of successful upstream calls for `fp` in a call log. -/
def successCount (cs : List (String × Bool)) (fp : String) : Nat :=
  (cs.filter (fun c => c.1 = fp && c.2)).length

/-- A request carries fingerprint `fp` when one of its records has it. -/
def opMentions (fp : String) : IngestOp → Prop
  | .clock r _ _ => hashOf r = fp
  | .batch rs _ _ _ => ∃ p ∈ rs, hashOf p.1 = fp

/-- The record a request submits at position `k`. -/
def recordAt : IngestOp → Nat → Option AttRecord
  | .clock r _ _, 0 => some r
  | .clock _ _ _, _ + 1 => none
  | .batch rs _ _ _, k => (rs.get? k).map (·.1)

/-! ### Basic lemmas about the store operations -/

theorem filter_key_of_replaced (l : List (String × RHEntry)) (h : String) :
    (l.filter (fun p => !(p.1 = h))).filter (fun p => p.1 = h) = [] := by
  induction l with
  | nil => rfl
  | cons a t ih => by_cases ha : a.1 = h <;> simp [List.filter_cons, ha, ih]

theorem filter_key_of_other (l : List (String × RHEntry)) (h fp : String)
    (hne : fp ≠ h) :
    (l.filter (fun p => !(p.1 = h))).filter (fun p => p.1 = fp) =
      l.filter (fun p => p.1 = fp) := by
  induction l with
  | nil => rfl
  | cons a t ih =>
    have hsym : ¬(h = fp) := fun hh => hne hh.symm
    by_cases ha : a.1 = h
    · simp [List.filter_cons, ha, hsym, hne, ih]
    · by_cases hafp : a.1 = fp <;> simp [List.filter_cons, ha, hafp, hsym, hne, ih]

theorem rhCount_store (db : CacheDb) (h : String) (r : AttRecord) (b : Bool)
    (bid : Option String) (now : Nat) (fp : String) :
    rhCount (CacheService.storeRecordHash db h r b bid now) fp =
      if fp = h then 1 else rhCount db fp := by
  unfold rhCount CacheService.storeRecordHash
  by_cases hfp : fp = h
  · subst hfp
    simp [List.filter_cons, filter_key_of_replaced]
  · have hsym : ¬(h = fp) := fun hh => hfp hh.symm
    simp [List.filter_cons, filter_key_of_other db.record_hashes h fp hfp,
      hsym, hfp]

theorem queue_store (db : CacheDb) (h : String) (r : AttRecord) (b : Bool)
    (bid : Option String) (now : Nat) :
    (CacheService.storeRecordHash db h r b bid now).attendance_queue =
      db.attendance_queue := rfl

theorem checkDup_eq_none_iff (db : CacheDb) (fp : String) :
    CacheService.checkDuplicateRecord db fp = none ↔ rhCount db fp = 0 := by
  simp [CacheService.checkDuplicateRecord, rhCount, List.find?_eq_none,
    List.length_eq_zero, List.filter_eq_nil_iff]

theorem checkDup_isSome_iff (db : CacheDb) (fp : String) :
    (CacheService.checkDuplicateRecord db fp).isSome ↔ 1 ≤ rhCount db fp := by
  rw [Option.isSome_iff_ne_none, Nat.one_le_iff_ne_zero, not_iff_not]
  exact checkDup_eq_none_iff db fp

theorem checkDup_store_self (db : CacheDb) (h : String) (r : AttRecord)
    (b : Bool) (bid : Option String) (now : Nat) :
    CacheService.checkDuplicateRecord (CacheService.storeRecordHash db h r b bid now) h =
      some { record_data := r, is_synced := b,
             synced_at := if b then some now else none, batch_id := bid } := by
  simp [CacheService.checkDuplicateRecord, CacheService.storeRecordHash,
    List.find?_cons_of_pos]

theorem queueCount_pos_iff (db : CacheDb) (fp : String) :
    1 ≤ queueCount db fp ↔
      db.attendance_queue.any (fun row => row.record_hash = fp) = true := by
  simp [queueCount, Nat.one_le_iff_ne_zero, List.length_eq_zero,
    List.filter_eq_nil_iff, List.any_eq_true]

theorem queueAttendance_cases (db : CacheDb) (inp : CacheService.QueueInput) :
    (1 ≤ queueCount db (CacheService.queueInputHash inp) ∧
      CacheService.queueAttendance db inp = .error .uniqueConstraint) ∨
    (queueCount db (CacheService.queueInputHash inp) = 0 ∧
      CacheService.queueAttendance db inp = .ok (db.nextId,
        { db with
          attendance_queue :=
            db.attendance_queue ++ [CacheService.newQueueRow db inp],
          nextId := db.nextId + 1 })) := by
  by_cases hq : db.attendance_queue.any
      (fun row => row.record_hash = CacheService.queueInputHash inp) = true
  · exact Or.inl ⟨(queueCount_pos_iff db _).mpr hq,
      by simp [CacheService.queueAttendance, hq]⟩
  · refine Or.inr ⟨?_, by simp [CacheService.queueAttendance, hq]⟩
    by_contra hne
    exact hq ((queueCount_pos_iff db _).mp (Nat.one_le_iff_ne_zero.mpr hne))

/-- Claim C2 (counterexample): a clock submission that syncs directly gets
a 2xx `synced` response while the durable `attendance_queue` stays empty —
the handler never enqueued the event before the upstream attempt and the
entry exists only in `record_hashes`, so the claimed
"enqueue, then attempt, then mark_synced" order does not happen. -/
theorem c2_counterexample :
    (clockHandler CacheDb.init
        { employee_id := "E1", timestamp := "2024-06-10T08:30:00Z",
          status := "clock-in" } true 0).2.1 = .syncedOk ∧
    (clockHandler CacheDb.init
        { employee_id := "E1", timestamp := "2024-06-10T08:30:00Z",
          status := "clock-in" } true 0).1.attendance_queue = [] := by
  exact ⟨rfl, rfl⟩

/-! ### The route hash is never the empty string

`record.record_id || generateRecordHash(record)` is either a non-empty
caller id or a 64-character SHA-256 hex digest, so the routes always pass
`queueAttendance` a truthy `record_hash` and the generated fallback inside
`queueAttendance` is dead on those calls. -/

theorem sha256Round_length (st : List Nat) (k w : Nat) (h8 : st.length = 8) :
    (sha256Round st k w).length = 8 := by
  rcases st with _ | ⟨a, st⟩
  · simp only [List.length_nil] at h8; omega
  rcases st with _ | ⟨b, st⟩
  · simp only [List.length_cons, List.length_nil] at h8; omega
  rcases st with _ | ⟨c, st⟩
  · simp only [List.length_cons, List.length_nil] at h8; omega
  rcases st with _ | ⟨d, st⟩
  · simp only [List.length_cons, List.length_nil] at h8; omega
  rcases st with _ | ⟨e, st⟩
  · simp only [List.length_cons, List.length_nil] at h8; omega
  rcases st with _ | ⟨f, st⟩
  · simp only [List.length_cons, List.length_nil] at h8; omega
  rcases st with _ | ⟨g, st⟩
  · simp only [List.length_cons, List.length_nil] at h8; omega
  rcases st with _ | ⟨x, st⟩
  · simp only [List.length_cons, List.length_nil] at h8; omega
  rcases st with _ | ⟨y, st⟩
  · rfl
  · simp only [List.length_cons] at h8
    omega

theorem foldl_round_length (l : List (Nat × Nat)) (st : List Nat)
    (h8 : st.length = 8) :
    (l.foldl (fun s kw => sha256Round s kw.1 kw.2) st).length = 8 := by
  induction l generalizing st with
  | nil => exact h8
  | cons a t ih => exact ih _ (sha256Round_length _ _ _ h8)

theorem compressBlock_length (hs block : List Nat) (h8 : hs.length = 8) :
    (compressBlock hs block).length = 8 := by
  unfold compressBlock
  rw [List.length_zipWith, foldl_round_length _ _ h8, h8]
  simp

theorem foldl_compress_length (bs : List (List Nat)) (hs : List Nat)
    (h8 : hs.length = 8) : (bs.foldl compressBlock hs).length = 8 := by
  induction bs generalizing hs with
  | nil => exact h8
  | cons b t ih => exact ih _ (compressBlock_length _ _ h8)

theorem sha256Words_length (msg : List Nat) : (sha256Words msg).length = 8 :=
  foldl_compress_length _ _ rfl

theorem sha256Hex_ne_empty (s : String) : sha256Hex s ≠ "" := by
  intro hcontra
  have h8 := sha256Words_length (utf8Bytes s)
  rcases hw : sha256Words (utf8Bytes s) with _ | ⟨w, ws⟩
  · rw [hw] at h8; cases h8
  · rw [sha256Hex, hw] at hcontra
    have := congrArg String.data hcontra
    simp [hexOfBytes, wordBytes] at this

theorem hashOf_ne_empty (r : AttRecord) : hashOf r ≠ "" := by
  unfold hashOf jsOrStr
  rcases r.record_id with _ | s
  · exact sha256Hex_ne_empty _
  · by_cases hs : s = ""
    · simp only [hs, if_pos rfl]
      exact sha256Hex_ne_empty _
    · simp only [if_neg hs]
      exact hs

theorem queueInputHash_of_route (r : AttRecord) (bid : Option String) :
    CacheService.queueInputHash
      { record := r, record_hash := some (hashOf r), batch_id := bid } =
        hashOf r := by
  simp [CacheService.queueInputHash, jsOrStr, hashOf_ne_empty r]

/-- Claim C2 (amended): every clock submission answered 2xx leaves an
entry for its fingerprint in the `record_hashes` store — marked synced
when the synchronous upstream attempt (which the handler makes first,
before any enqueue) succeeded, and unsynced together with a pending
`attendance_queue` row (response `queued`) when it failed; a directly
synced submission never touches the attendance queue. -/
theorem c2_amended_no_loss (db : CacheDb) (r : AttRecord) (ok : Bool)
    (now : Nat) :
    ((clockHandler db r ok now).2.1 ≠ .errorStatus →
      1 ≤ rhCount (clockHandler db r ok now).1 (hashOf r)) ∧
    ((clockHandler db r ok now).2.1 = .syncedOk →
      (∃ e, CacheService.checkDuplicateRecord (clockHandler db r ok now).1
          (hashOf r) = some e ∧ e.is_synced = true) ∧
      (clockHandler db r ok now).1.attendance_queue = db.attendance_queue) ∧
    ((clockHandler db r ok now).2.1 = .queued →
      (∃ e, CacheService.checkDuplicateRecord (clockHandler db r ok now).1
          (hashOf r) = some e ∧ e.is_synced = false) ∧
      ∃ row ∈ (clockHandler db r ok now).1.attendance_queue,
        row.record_hash = hashOf r ∧ row.synced = false) := by
  rcases hdup : CacheService.checkDuplicateRecord db (hashOf r) with _ | e
  · rcases ok with _ | _
    · rcases queueAttendance_cases db
          { record := r, record_hash := some (hashOf r) } with
        ⟨hq1, herr⟩ | ⟨hq0, hok⟩
      · simp [clockHandler, hdup, herr]
      · refine ⟨fun _ => ?_, fun hs => ?_, fun _ => ?_⟩
        · simp only [clockHandler, hdup, hok, Bool.false_eq_true, if_false]
          rw [rhCount_store]; simp
        · simp only [clockHandler, hdup, hok, Bool.false_eq_true,
            if_false] at hs
          cases hs
        · simp only [clockHandler, hdup, hok, Bool.false_eq_true, if_false]
          refine ⟨⟨_, checkDup_store_self _ _ _ _ _ _, rfl⟩,
            CacheService.newQueueRow db
              { record := r, record_hash := some (hashOf r) }, ?_, ?_, rfl⟩
          · rw [queue_store]; simp
          · exact queueInputHash_of_route r none
    · refine ⟨fun _ => ?_,
        fun _ =>
          ⟨⟨{ record_data := r, is_synced := true, synced_at := some now,
                batch_id := none },
            ?_, rfl⟩, ?_⟩,
        fun hq => ?_⟩
      · simp only [clockHandler, hdup, if_true]
        rw [rhCount_store]; simp
      · simp only [clockHandler, hdup, if_true]
        exact checkDup_store_self _ _ _ _ _ _
      · simp only [clockHandler, hdup, if_true]
        exact queue_store _ _ _ _ _ _
      · simp only [clockHandler, hdup, if_true] at hq
        cases hq
  · refine ⟨fun _ => ?_, fun hs => ?_, fun hq => ?_⟩
    · simp only [clockHandler, hdup]
      exact (checkDup_isSome_iff db (hashOf r)).mp (by rw [hdup]; rfl)
    · simp only [clockHandler, hdup] at hs; cases hs
    · simp only [clockHandler, hdup] at hq; cases hq

/-- Concrete instance of the amended C2 theorem: an upstream failure on a
fresh record yields `queued`, an unsynced hash entry and a pending queue
row. -/
theorem c2_witness :
    ((clockHandler CacheDb.init
        { employee_id := "E2", timestamp := "2024-06-10T09:00:00Z",
          status := "clock-out" } false 7).2.1 = .queued →
      (∃ e, CacheService.checkDuplicateRecord
          (clockHandler CacheDb.init
            { employee_id := "E2", timestamp := "2024-06-10T09:00:00Z",
              status := "clock-out" } false 7).1
          (hashOf
            { employee_id := "E2", timestamp := "2024-06-10T09:00:00Z",
              status := "clock-out" }) = some e ∧ e.is_synced = false) ∧
      ∃ row ∈ (clockHandler CacheDb.init
          { employee_id := "E2", timestamp := "2024-06-10T09:00:00Z",
            status := "clock-out" } false 7).1.attendance_queue,
        row.record_hash = hashOf
          { employee_id := "E2", timestamp := "2024-06-10T09:00:00Z",
            status := "clock-out" } ∧
        row.synced = false) ∧
    (clockHandler CacheDb.init
        { employee_id := "E2", timestamp := "2024-06-10T09:00:00Z",
          status := "clock-out" } false 7).2.1 = .queued :=
  ⟨(c2_amended_no_loss CacheDb.init
      { employee_id := "E2", timestamp := "2024-06-10T09:00:00Z",
        status := "clock-out" } false 7).2.2, rfl⟩

/-- A queue input with a caller-supplied idempotency key, used to
exercise `queueAttendance` twice on the same fingerprint. -/
def c4Inp : CacheService.QueueInput :=
  { record := { employee_id := "E1", timestamp := "2024-06-10T08:30:00Z",
                status := "clock-in" },
    record_hash := some "fp-1" }

/-- The database state after the first successful enqueue of `c4Inp`. -/
def c4Db1 : CacheDb :=
  { record_hashes := [],
    attendance_queue := [CacheService.newQueueRow CacheDb.init c4Inp],
    nextId := 2 }

/-- Claim C4 (counterexample): enqueueing the same event twice does not
return the existing entry with `created = false` — the second
`queueAttendance` call fails with the SQLite UNIQUE-constraint error
(while the first one succeeds). -/
theorem c4_counterexample :
    CacheService.queueAttendance
        (match CacheService.queueAttendance CacheDb.init c4Inp with
          | .ok p => p.2
          | .error _ => CacheDb.init) c4Inp = .error .uniqueConstraint ∧
    CacheService.queueAttendance CacheDb.init c4Inp = .ok (1, c4Db1) := by
  exact ⟨rfl, rfl⟩

/-- Claim C4 (amended): `queueAttendance` is not idempotent: when a row
with the same fingerprint already exists the insert fails with a
uniqueness-constraint error (leaving the caller's state unchanged, since
only an error is returned); otherwise it appends a fresh pending row
(`synced = 0`, `retry_count = 0`) under the next id. -/
theorem c4_amended_enqueue_not_idempotent (db : CacheDb)
    (inp : CacheService.QueueInput) :
    (1 ≤ queueCount db (CacheService.queueInputHash inp) →
      CacheService.queueAttendance db inp = .error .uniqueConstraint) ∧
    (queueCount db (CacheService.queueInputHash inp) = 0 →
      CacheService.queueAttendance db inp =
        .ok (db.nextId,
          { db with
            attendance_queue :=
              db.attendance_queue ++ [CacheService.newQueueRow db inp],
            nextId := db.nextId + 1 }) ∧
      (CacheService.newQueueRow db inp).synced = false ∧
      (CacheService.newQueueRow db inp).retry_count = 0) := by
  rcases queueAttendance_cases db inp with ⟨hq1, herr⟩ | ⟨hq0, hok⟩
  · exact ⟨fun _ => herr, fun h0 => absurd h0 (by omega)⟩
  · exact ⟨fun h1 => absurd hq0 (by omega), fun _ => ⟨hok, rfl, rfl⟩⟩

/-- Concrete instance of the amended C4 theorem: the fresh enqueue of
`c4Inp` inserts a pending row, and the repeat enqueue against the
resulting state fails with the uniqueness error. -/
theorem c4_witness :
    (queueCount CacheDb.init (CacheService.queueInputHash c4Inp) = 0 ∧
      CacheService.queueAttendance CacheDb.init c4Inp =
        .ok (CacheDb.init.nextId,
          { CacheDb.init with
            attendance_queue := CacheDb.init.attendance_queue ++
              [CacheService.newQueueRow CacheDb.init c4Inp],
            nextId := CacheDb.init.nextId + 1 })) ∧
    (1 ≤ queueCount c4Db1 (CacheService.queueInputHash c4Inp) ∧
      CacheService.queueAttendance c4Db1 c4Inp = .error .uniqueConstraint) :=
  ⟨⟨by decide,
      ((c4_amended_enqueue_not_idempotent CacheDb.init c4Inp).2 (by decide)).1⟩,
    ⟨by decide,
      (c4_amended_enqueue_not_idempotent c4Db1 c4Inp).1 (by decide)⟩⟩

/-- A queue row that is already synced (at time 100), used to show that
`markAttendanceSynced` mutates synced entries. -/
def c5Row : QueueRow :=
  { id := 1, employee_id := "E1", timestamp := "2024-06-10T08:30:00Z",
    status := "clock-in", site_id := none, device_id := none,
    latitude := none, longitude := none, record_hash := "fp-1",
    batch_id := none, retry_count := 0, last_retry := none,
    synced := true, synced_at := some 100, error_message := none }

/-- A database whose queue holds only the already-synced `c5Row`. -/
def c5Db : CacheDb :=
  { record_hashes := [], attendance_queue := [c5Row], nextId := 2 }

/-- Claim C5 (counterexample): calling `markAttendanceSynced` on an entry
that is already `synced` (with `synced_at = 100`) is neither rejected nor
a no-op — it overwrites `synced_at` with the new call time 200, mutating
the synced entry. -/
theorem c5_counterexample :
    (CacheService.markAttendanceSynced c5Db 1 none 200).attendance_queue =
      [{ c5Row with synced := true, synced_at := some 200 }] ∧
    ({ c5Row with synced := true, synced_at := some 200 } : QueueRow) ≠
      c5Row := by
  exact ⟨by decide, by decide⟩

/-- Claim C5 (amended): `markAttendanceSynced` is an unconditional
last-write-wins update: it never checks the source state (it sets
`synced = 1` and overwrites `synced_at` with the call time on whatever row
matches the id, and is a total operation that cannot reject), so a second
call equals a single call at the second time — rather than a no-op — and
rows with other ids are untouched. -/
theorem c5_amended_mark_synced_overwrites (db : CacheDb) (id : Nat)
    (rh : Option String) (t1 t2 : Nat) :
    CacheService.markAttendanceSynced
        (CacheService.markAttendanceSynced db id rh t1) id rh t2 =
      CacheService.markAttendanceSynced db id rh t2 ∧
    (∀ row ∈ db.attendance_queue, row.id = id →
      { row with synced := true, synced_at := some t1 } ∈
        (CacheService.markAttendanceSynced db id rh t1).attendance_queue) ∧
    (∀ row ∈ db.attendance_queue, row.id ≠ id →
      row ∈ (CacheService.markAttendanceSynced db id rh t1).attendance_queue) := by
  refine ⟨?_, ?_, ?_⟩
  · obtain ⟨rhs, q, n⟩ := db
    unfold CacheService.markAttendanceSynced
    by_cases hrh : jsTruthy rh = true <;>
      simp only [hrh, if_true, if_false, Bool.false_eq_true, List.map_map] <;>
      congr 1
    · exact List.map_congr_left fun p _ => by
        by_cases hp : p.1 = rh.getD "" <;> simp [Function.comp, hp]
    · exact List.map_congr_left fun row _ => by
        by_cases hid : row.id = id <;> simp [Function.comp, hid]
    · exact List.map_congr_left fun row _ => by
        by_cases hid : row.id = id <;> simp [Function.comp, hid]
  · intro row hmem hid
    have hf : { row with synced := true, synced_at := some t1 } =
        (fun r0 => if r0.id = id then
          { r0 with synced := true, synced_at := some t1 } else r0) row := by
      simp [hid]
    rw [hf]
    exact List.mem_map_of_mem _ hmem
  · intro row hmem hid
    have hf : (fun r0 => if r0.id = id then
        { r0 with synced := true, synced_at := some t1 } else r0) row = row := by
      simp [hid]
    exact hf ▸ List.mem_map_of_mem _ hmem

/-- Concrete instance of the amended C5 theorem at the already-synced row:
the updated row is in the queue after the call, and marking twice equals
marking once at the later time. -/
theorem c5_witness :
    ({ c5Row with synced := true, synced_at := some 300 } ∈
      (CacheService.markAttendanceSynced c5Db 1 none 300).attendance_queue) ∧
    CacheService.markAttendanceSynced
        (CacheService.markAttendanceSynced c5Db 1 none 300) 1 none 400 =
      CacheService.markAttendanceSynced c5Db 1 none 400 :=
  ⟨(c5_amended_mark_synced_overwrites c5Db 1 none 300 400).2.1 c5Row
      (by decide) rfl,
    (c5_amended_mark_synced_overwrites c5Db 1 none 300 400).1⟩

/-! ### The fingerprint-level ingestion invariant (claim C1)

For a fixed fingerprint `fp`, every reachable ingestion state keeps: at
most one `record_hashes` entry, at most as many queue rows as hash
entries, and at most as many logged upstream calls as hash entries.  The
first upstream call for `fp` leaves a hash entry behind, and the entry
makes every later submission with `fp` answer `duplicate`, so calls for
`fp` never exceed one. -/

def InvAt (fp : String) (db : CacheDb) (cc : Nat) : Prop :=
  rhCount db fp ≤ 1 ∧ queueCount db fp ≤ rhCount db fp ∧
    cc ≤ rhCount db fp

theorem InvAt_init (fp : String) : InvAt fp CacheDb.init 0 :=
  ⟨Nat.zero_le 1, Nat.le_refl 0, Nat.le_refl 0⟩

theorem callCount_nil (fp : String) : callCount [] fp = 0 := rfl

theorem callCount_single (h : String) (b : Bool) (fp : String) :
    callCount [(h, b)] fp = if h = fp then 1 else 0 := by
  by_cases hh : h = fp <;> simp [callCount, List.filter_cons, hh]

theorem callCount_append (a b : List (String × Bool)) (fp : String) :
    callCount (a ++ b) fp = callCount a fp + callCount b fp := by
  simp [callCount, List.filter_append]

theorem successCount_le_callCount (cs : List (String × Bool)) (fp : String) :
    successCount cs fp ≤ callCount cs fp := by
  induction cs with
  | nil => exact Nat.le_refl 0
  | cons c t ih =>
    by_cases h1 : c.1 = fp
    · by_cases h2 : c.2 = true <;>
        simp [successCount, callCount, List.filter_cons, h1, h2] at ih ⊢ <;>
        omega
    · simpa [successCount, callCount, List.filter_cons, h1] using ih

theorem queueCount_insert (db : CacheDb) (row : QueueRow) (n : Nat)
    (fp : String) :
    queueCount
        { db with attendance_queue := db.attendance_queue ++ [row],
                  nextId := n } fp =
      queueCount db fp + (if row.record_hash = fp then 1 else 0) := by
  by_cases hr : row.record_hash = fp <;>
    simp [queueCount, List.filter_append, List.filter_cons, hr]

theorem rhCount_insert (db : CacheDb) (row : QueueRow) (n : Nat)
    (fp : String) :
    rhCount
        { db with attendance_queue := db.attendance_queue ++ [row],
                  nextId := n } fp = rhCount db fp := rfl

/-- `clockHandler` never loses `record_hashes` entries for any key. -/
theorem clock_mono (db : CacheDb) (r : AttRecord) (ok : Bool) (now : Nat)
    (fp : String) :
    rhCount db fp ≤ rhCount (clockHandler db r ok now).1 fp := by
  rcases hdup : CacheService.checkDuplicateRecord db (hashOf r) with _ | e
  · have hz : rhCount db (hashOf r) = 0 := (checkDup_eq_none_iff _ _).mp hdup
    rcases ok with _ | _
    · rcases queueAttendance_cases db
          { record := r, record_hash := some (hashOf r) } with
        ⟨hq1, herr⟩ | ⟨hq0, hok⟩
      · simp [clockHandler, hdup, herr]
      · simp only [clockHandler, hdup, hok, Bool.false_eq_true, if_false]
        rw [rhCount_store]
        by_cases hfp : fp = hashOf r
        · rw [if_pos hfp, hfp, hz]; omega
        · rw [if_neg hfp]; exact Nat.le_refl _
    · simp only [clockHandler, hdup, if_true]
      rw [rhCount_store]
      by_cases hfp : fp = hashOf r
      · rw [if_pos hfp, hfp, hz]; omega
      · rw [if_neg hfp]
  · simp [clockHandler, hdup]

/-- `batchOne` never loses `record_hashes` entries for any key. -/
theorem batchOne_mono (db : CacheDb) (r : AttRecord) (bid : String)
    (off ok : Bool) (now : Nat) (fp : String) :
    rhCount db fp ≤ rhCount (batchOne db r bid off ok now).1 fp := by
  rcases hdup : CacheService.checkDuplicateRecord db (hashOf r) with _ | e
  · have hz : rhCount db (hashOf r) = 0 := (checkDup_eq_none_iff _ _).mp hdup
    have hstore : ∀ db0 : CacheDb, rhCount db0 fp = rhCount db fp →
        rhCount db fp ≤
          rhCount (CacheService.storeRecordHash db0 (hashOf r) r false none now) fp := by
      intro db0 h0
      rw [rhCount_store]
      by_cases hfp : fp = hashOf r
      · rw [if_pos hfp, hfp, hz]; omega
      · rw [if_neg hfp, h0]
    rcases off with _ | _
    · rcases ok with _ | _
      · rcases queueAttendance_cases db
            { record := r, record_hash := some (hashOf r),
              batch_id := some bid } with ⟨hq1, herr⟩ | ⟨hq0, hok⟩
        · simp [batchOne, hdup, herr]
        · simp only [batchOne, hdup, hok, Bool.false_eq_true, if_false]
          exact hstore _ rfl
      · simp only [batchOne, hdup, Bool.false_eq_true, if_false, if_true]
        rw [rhCount_store]
        by_cases hfp : fp = hashOf r
        · rw [if_pos hfp, hfp, hz]; omega
        · rw [if_neg hfp]
    · rcases queueAttendance_cases db
          { record := r, record_hash := some (hashOf r),
            batch_id := some bid } with ⟨hq1, herr⟩ | ⟨hq0, hok⟩
      · simp [batchOne, hdup, herr]
      · simp only [batchOne, hdup, hok, if_true]
        exact hstore _ rfl
  · simp [batchOne, hdup]

/-- `batchRun` never loses `record_hashes` entries for any key. -/
theorem batchRun_mono (rs : List (AttRecord × Bool)) (bid : String)
    (off : Bool) (now : Nat) (fp : String) :
    ∀ db : CacheDb, rhCount db fp ≤ rhCount (batchRun db rs bid off now).1 fp := by
  induction rs with
  | nil => intro db; exact Nat.le_refl _
  | cons p rest ih =>
    intro db
    exact Nat.le_trans (batchOne_mono db p.1 bid off p.2 now fp) (ih _)

/-- `applyOp` never loses `record_hashes` entries for any key. -/
theorem applyOp_mono (op : IngestOp) (db : CacheDb) (fp : String) :
    rhCount db fp ≤ rhCount (applyOp db op).1 fp := by
  rcases op with ⟨r, ok, now⟩ | ⟨rs, bid, off, now⟩
  · exact clock_mono db r ok now fp
  · exact batchRun_mono rs bid off now fp db

/-- `runOps` never loses `record_hashes` entries for any key. -/
theorem runOps_mono (l : List IngestOp) (fp : String) :
    ∀ db : CacheDb, rhCount db fp ≤ rhCount (runOps db l).1 fp := by
  induction l with
  | nil => intro db; exact Nat.le_refl _
  | cons op rest ih =>
    intro db
    exact Nat.le_trans (applyOp_mono op db fp) (ih _)

theorem queueCount_store (db : CacheDb) (h : String) (r : AttRecord)
    (b : Bool) (bid : Option String) (now : Nat) (fp : String) :
    queueCount (CacheService.storeRecordHash db h r b bid now) fp =
      queueCount db fp := rfl

theorem newQueueRow_hash_route (db : CacheDb) (r : AttRecord)
    (bid : Option String) :
    (CacheService.newQueueRow db
      { record := r, record_hash := some (hashOf r),
        batch_id := bid }).record_hash = hashOf r :=
  queueInputHash_of_route r bid

/-- Counting facts about the enqueue-then-store composite the failing
upstream paths perform. -/
theorem after_queue_store (fp : String) (db : CacheDb) (r : AttRecord)
    (bid : Option String) (now : Nat) :
    rhCount (CacheService.storeRecordHash
        { db with
          attendance_queue := db.attendance_queue ++
            [CacheService.newQueueRow db
              { record := r, record_hash := some (hashOf r),
                batch_id := bid }],
          nextId := db.nextId + 1 } (hashOf r) r false none now) fp =
      (if fp = hashOf r then 1 else rhCount db fp) ∧
    queueCount (CacheService.storeRecordHash
        { db with
          attendance_queue := db.attendance_queue ++
            [CacheService.newQueueRow db
              { record := r, record_hash := some (hashOf r),
                batch_id := bid }],
          nextId := db.nextId + 1 } (hashOf r) r false none now) fp =
      queueCount db fp + (if hashOf r = fp then 1 else 0) := by
  constructor
  · rw [rhCount_store]
    by_cases hfp : fp = hashOf r
    · rw [if_pos hfp, if_pos hfp]
    · rw [if_neg hfp, if_neg hfp]; rfl
  · rw [queueCount_store, queueCount_insert, newQueueRow_hash_route]

/-- One clock submission preserves the fingerprint invariant (with its
own upstream calls appended) and establishes the hash entry when the
submission carries `fp`. -/
theorem clock_step (fp : String) (db : CacheDb) (r : AttRecord) (ok : Bool)
    (now cc : Nat) (h : InvAt fp db cc) :
    InvAt fp (clockHandler db r ok now).1
      (cc + callCount (clockHandler db r ok now).2.2 fp) ∧
    (hashOf r = fp → 1 ≤ rhCount (clockHandler db r ok now).1 fp) := by
  obtain ⟨h1, h2, h3⟩ := h
  rcases hdup : CacheService.checkDuplicateRecord db (hashOf r) with _ | e
  · have hz : rhCount db (hashOf r) = 0 := (checkDup_eq_none_iff _ _).mp hdup
    rcases ok with _ | _
    · rcases queueAttendance_cases db
          { record := r, record_hash := some (hashOf r) } with
        ⟨hq1, herr⟩ | ⟨hq0, hok⟩
      · rw [queueInputHash_of_route] at hq1
        simp only [clockHandler, hdup, herr, Bool.false_eq_true, if_false]
        by_cases hfp : hashOf r = fp
        · subst hfp
          exact absurd (Nat.le_trans hq1 h2) (by omega)
        · rw [callCount_single, if_neg hfp]
          exact ⟨⟨h1, h2, by omega⟩, fun hh => absurd hh hfp⟩
      · rw [queueInputHash_of_route] at hq0
        simp only [clockHandler, hdup, hok, Bool.false_eq_true, if_false]
        obtain ⟨hrh2, hqc2⟩ := after_queue_store fp db r none now
        simp only [InvAt]
        rw [callCount_single, hrh2, hqc2]
        by_cases hfp : fp = hashOf r
        · subst hfp
          rw [if_pos rfl, if_pos rfl]
          refine ⟨⟨?_, ?_, ?_⟩, fun _ => ?_⟩ <;> omega
        · have hfp' : ¬(hashOf r = fp) := fun hh => hfp hh.symm
          rw [if_neg hfp, if_neg hfp']
          refine ⟨⟨?_, ?_, ?_⟩, fun hh => absurd hh hfp'⟩ <;> omega
    · simp only [clockHandler, hdup, if_true]
      simp only [InvAt]
      rw [rhCount_store, queueCount_store, callCount_single]
      by_cases hfp : fp = hashOf r
      · subst hfp
        rw [if_pos rfl, if_pos rfl]
        refine ⟨⟨?_, ?_, ?_⟩, fun _ => ?_⟩ <;> omega
      · have hfp' : ¬(hashOf r = fp) := fun hh => hfp hh.symm
        rw [if_neg hfp, if_neg hfp']
        refine ⟨⟨?_, ?_, ?_⟩, fun hh => absurd hh hfp'⟩ <;> omega
  · have hpos : 1 ≤ rhCount db (hashOf r) :=
      (checkDup_isSome_iff _ _).mp (by rw [hdup]; rfl)
    simp only [clockHandler, hdup]
    refine ⟨⟨h1, h2, ?_⟩, fun hh => ?_⟩
    · rw [callCount_nil]; omega
    · rw [← hh]; exact hpos

/-- `clock_step`, for one record of a batch. -/
theorem batchOne_step (fp : String) (db : CacheDb) (r : AttRecord)
    (bid : String) (off ok : Bool) (now cc : Nat) (h : InvAt fp db cc) :
    InvAt fp (batchOne db r bid off ok now).1
      (cc + callCount (batchOne db r bid off ok now).2.2 fp) ∧
    (hashOf r = fp → 1 ≤ rhCount (batchOne db r bid off ok now).1 fp) := by
  obtain ⟨h1, h2, h3⟩ := h
  rcases hdup : CacheService.checkDuplicateRecord db (hashOf r) with _ | e
  · have hz : rhCount db (hashOf r) = 0 := (checkDup_eq_none_iff _ _).mp hdup
    rcases off with _ | _
    · rcases ok with _ | _
      · rcases queueAttendance_cases db
            { record := r, record_hash := some (hashOf r),
              batch_id := some bid } with ⟨hq1, herr⟩ | ⟨hq0, hok⟩
        · rw [queueInputHash_of_route] at hq1
          simp only [batchOne, hdup, herr, Bool.false_eq_true, if_false]
          by_cases hfp : hashOf r = fp
          · subst hfp
            exact absurd (Nat.le_trans hq1 h2) (by omega)
          · rw [callCount_single, if_neg hfp]
            exact ⟨⟨h1, h2, by omega⟩, fun hh => absurd hh hfp⟩
        · rw [queueInputHash_of_route] at hq0
          simp only [batchOne, hdup, hok, Bool.false_eq_true, if_false]
          obtain ⟨hrh2, hqc2⟩ := after_queue_store fp db r (some bid) now
          simp only [InvAt]
          rw [callCount_single, hrh2, hqc2]
          by_cases hfp : fp = hashOf r
          · subst hfp
            rw [if_pos rfl, if_pos rfl]
            refine ⟨⟨?_, ?_, ?_⟩, fun _ => ?_⟩ <;> omega
          · have hfp' : ¬(hashOf r = fp) := fun hh => hfp hh.symm
            rw [if_neg hfp, if_neg hfp']
            refine ⟨⟨?_, ?_, ?_⟩, fun hh => absurd hh hfp'⟩ <;> omega
      · simp only [batchOne, hdup, Bool.false_eq_true, if_false, if_true]
        simp only [InvAt]
        rw [rhCount_store, queueCount_store, callCount_single]
        by_cases hfp : fp = hashOf r
        · subst hfp
          rw [if_pos rfl, if_pos rfl]
          refine ⟨⟨?_, ?_, ?_⟩, fun _ => ?_⟩ <;> omega
        · have hfp' : ¬(hashOf r = fp) := fun hh => hfp hh.symm
          rw [if_neg hfp, if_neg hfp']
          refine ⟨⟨?_, ?_, ?_⟩, fun hh => absurd hh hfp'⟩ <;> omega
    · rcases queueAttendance_cases db
          { record := r, record_hash := some (hashOf r),
            batch_id := some bid } with ⟨hq1, herr⟩ | ⟨hq0, hok⟩
      · rw [queueInputHash_of_route] at hq1
        simp only [batchOne, hdup, herr, if_true]
        by_cases hfp : hashOf r = fp
        · subst hfp
          exact absurd (Nat.le_trans hq1 h2) (by omega)
        · rw [callCount_nil]
          exact ⟨⟨h1, h2, by omega⟩, fun hh => absurd hh hfp⟩
      · rw [queueInputHash_of_route] at hq0
        simp only [batchOne, hdup, hok, if_true]
        obtain ⟨hrh2, hqc2⟩ := after_queue_store fp db r (some bid) now
        simp only [InvAt]
        rw [callCount_nil, hrh2, hqc2]
        by_cases hfp : fp = hashOf r
        · subst hfp
          rw [if_pos rfl, if_pos rfl]
          refine ⟨⟨?_, ?_, ?_⟩, fun _ => ?_⟩ <;> omega
        · have hfp' : ¬(hashOf r = fp) := fun hh => hfp hh.symm
          rw [if_neg hfp, if_neg hfp']
          refine ⟨⟨?_, ?_, ?_⟩, fun hh => absurd hh hfp'⟩ <;> omega
  · have hpos : 1 ≤ rhCount db (hashOf r) :=
      (checkDup_isSome_iff _ _).mp (by rw [hdup]; rfl)
    simp only [batchOne, hdup]
    refine ⟨⟨h1, h2, ?_⟩, fun hh => ?_⟩
    · rw [callCount_nil]; omega
    · rw [← hh]; exact hpos

/-- A whole batch preserves the invariant and establishes the hash entry
for every fingerprint it carries. -/
theorem batchRun_step (fp : String) (rs : List (AttRecord × Bool))
    (bid : String) (off : Bool) (now : Nat) :
    ∀ (db : CacheDb) (cc : Nat), InvAt fp db cc →
      InvAt fp (batchRun db rs bid off now).1
        (cc + callCount (batchRun db rs bid off now).2.2 fp) ∧
      ((∃ p ∈ rs, hashOf p.1 = fp) →
        1 ≤ rhCount (batchRun db rs bid off now).1 fp) := by
  induction rs with
  | nil =>
    intro db cc h
    exact ⟨by simpa [batchRun, callCount_nil] using h,
      fun ⟨p, hp, _⟩ => absurd hp (List.not_mem_nil p)⟩
  | cons q rest ih =>
    intro db cc h
    obtain ⟨r, ok⟩ := q
    obtain ⟨hInv1, hMent1⟩ := batchOne_step fp db r bid off ok now cc h
    obtain ⟨hInv2, hMent2⟩ := ih _ _ hInv1
    constructor
    · simp only [batchRun]
      rw [callCount_append, ← Nat.add_assoc]
      exact hInv2
    · rintro ⟨p, hp, hfp⟩
      rcases List.mem_cons.mp hp with hp0 | hp'
      · subst hp0
        simp only [batchRun]
        exact Nat.le_trans (hMent1 hfp) (batchRun_mono rest bid off now fp _)
      · simp only [batchRun]
        exact hMent2 ⟨p, hp', hfp⟩

/-- One inbound request preserves the invariant and establishes the hash
entry for every fingerprint it mentions. -/
theorem applyOp_step (fp : String) (op : IngestOp) (db : CacheDb) (cc : Nat)
    (h : InvAt fp db cc) :
    InvAt fp (applyOp db op).1 (cc + callCount (applyOp db op).2.2 fp) ∧
    (opMentions fp op → 1 ≤ rhCount (applyOp db op).1 fp) := by
  rcases op with ⟨r, ok, now⟩ | ⟨rs, bid, off, now⟩
  · exact clock_step fp db r ok now cc h
  · exact batchRun_step fp rs bid off now db cc h

/-- A whole request sequence preserves the invariant and establishes the
hash entry for every fingerprint it mentions. -/
theorem runOps_step (fp : String) (l : List IngestOp) :
    ∀ (db : CacheDb) (cc : Nat), InvAt fp db cc →
      InvAt fp (runOps db l).1 (cc + callCount (runOps db l).2 fp) ∧
      ((∃ op ∈ l, opMentions fp op) → 1 ≤ rhCount (runOps db l).1 fp) := by
  induction l with
  | nil =>
    intro db cc h
    exact ⟨by simpa [runOps, callCount_nil] using h,
      fun ⟨op, hop, _⟩ => absurd hop (List.not_mem_nil op)⟩
  | cons op rest ih =>
    intro db cc h
    obtain ⟨hInv1, hMent1⟩ := applyOp_step fp op db cc h
    obtain ⟨hInv2, hMent2⟩ := ih _ _ hInv1
    constructor
    · simp only [runOps]
      rw [callCount_append, ← Nat.add_assoc]
      exact hInv2
    · rintro ⟨op', hop', hm⟩
      rcases List.mem_cons.mp hop' with h0 | h'
      · subst h0
        simp only [runOps]
        exact Nat.le_trans (hMent1 hm) (runOps_mono rest fp _)
      · simp only [runOps]
        exact hMent2 ⟨op', h', hm⟩

/-- A clock submission whose fingerprint is already stored is answered
`duplicate` and changes nothing. -/
theorem clock_duplicate (db : CacheDb) (r : AttRecord) (ok : Bool)
    (now : Nat) (h1 : 1 ≤ rhCount db (hashOf r)) :
    clockHandler db r ok now = (db, .duplicate, []) := by
  have hsome := (checkDup_isSome_iff db (hashOf r)).mpr h1
  rcases hdup : CacheService.checkDuplicateRecord db (hashOf r) with _ | e
  · rw [hdup] at hsome; cases hsome
  · simp [clockHandler, hdup]

/-- A batch record whose fingerprint is already stored is answered
`duplicate` and changes nothing. -/
theorem batchOne_duplicate (db : CacheDb) (r : AttRecord) (bid : String)
    (off ok : Bool) (now : Nat) (h1 : 1 ≤ rhCount db (hashOf r)) :
    batchOne db r bid off ok now = (db, .duplicate, []) := by
  have hsome := (checkDup_isSome_iff db (hashOf r)).mpr h1
  rcases hdup : CacheService.checkDuplicateRecord db (hashOf r) with _ | e
  · rw [hdup] at hsome; cases hsome
  · simp [batchOne, hdup]

/-- Inside a batch, every record whose fingerprint is already stored when
the batch starts is reported `duplicate` at its own position. -/
theorem batch_duplicate_at (fp : String) (bid : String) (off : Bool)
    (now : Nat) :
    ∀ (rs : List (AttRecord × Bool)) (db : CacheDb) (k : Nat)
      (r : AttRecord) (b : Bool),
      1 ≤ rhCount db fp → rs.get? k = some (r, b) → hashOf r = fp →
      (batchRun db rs bid off now).2.1.get? k = some RecStatus.duplicate := by
  intro rs
  induction rs with
  | nil =>
    intro db k r b _ hget _
    simp at hget
  | cons q rest ih =>
    intro db k r b hrh hget hfp
    obtain ⟨r0, b0⟩ := q
    rcases k with _ | k
    · rw [List.get?_cons_zero] at hget
      injection hget with hq
      have hr0 : r0 = r := congrArg Prod.fst hq
      subst hr0
      have hd := batchOne_duplicate db r0 bid off b0 now (by rw [hfp]; exact hrh)
      simp only [batchRun, hd]
      rfl
    · simp only [batchRun]
      rw [List.get?_cons_succ] at hget ⊢
      exact ih _ k r b
        (Nat.le_trans hrh (batchOne_mono db r0 bid off b0 now fp)) hget hfp

/-- Claim C1: over any sequence of sequentially processed clock/batch
submissions, each fingerprint receives at most one upstream call (hence
at most one successful one), ends with exactly one `record_hashes` entry
once submitted (and at most one queue row), and every submission of a
fingerprint after an earlier request carried it is answered `duplicate`
rather than re-processed. -/
theorem c1_idempotent_ingestion (ops : List IngestOp) (fp : String) :
    successCount (runOps CacheDb.init ops).2 fp ≤ 1 ∧
    callCount (runOps CacheDb.init ops).2 fp ≤ 1 ∧
    queueCount (runOps CacheDb.init ops).1 fp ≤ 1 ∧
    ((∃ op ∈ ops, opMentions fp op) →
      rhCount (runOps CacheDb.init ops).1 fp = 1) ∧
    (∀ pre op post, ops = pre ++ op :: post →
      (∃ op' ∈ pre, opMentions fp op') →
      ∀ k r, recordAt op k = some r → hashOf r = fp →
        (applyOp (runOps CacheDb.init pre).1 op).2.1.get? k =
          some RecStatus.duplicate) := by
  obtain ⟨⟨hrh1, hq, hcc⟩, hment⟩ :=
    runOps_step fp ops CacheDb.init 0 (InvAt_init fp)
  refine ⟨?_, ?_, ?_, ?_, ?_⟩
  · exact Nat.le_trans (successCount_le_callCount _ _) (by omega)
  · omega
  · omega
  · intro hm
    have := hment hm
    omega
  · intro pre op post _ hm k r hrec hfp
    obtain ⟨_, hpreM⟩ := runOps_step fp pre CacheDb.init 0 (InvAt_init fp)
    have hrhpre : 1 ≤ rhCount (runOps CacheDb.init pre).1 fp := hpreM hm
    rcases op with ⟨r0, ok0, now0⟩ | ⟨rs, bid, off, now0⟩
    · rcases k with _ | k
      · simp only [recordAt] at hrec
        injection hrec with hr
        have hdupl := clock_duplicate (runOps CacheDb.init pre).1 r0 ok0 now0
          (by rw [hr, hfp]; exact hrhpre)
        simp only [applyOp, hdupl]
        rfl
      · simp only [recordAt] at hrec
        cases hrec
    · simp only [recordAt] at hrec
      rcases hget : rs.get? k with _ | p
      · rw [hget] at hrec; cases hrec
      · rw [hget] at hrec
        obtain ⟨r', b⟩ := p
        injection hrec with hr
        simp only [applyOp]
        exact batch_duplicate_at fp bid off now0 rs _ k r b hrhpre
          (hr ▸ hget) hfp

/-- A concrete record replayed in the C1 witness trace. -/
def c1Rec : AttRecord :=
  { employee_id := "E1", timestamp := "2024-06-10T08:30:00Z",
    status := "clock-in", device_id := some "D1" }

/-- Concrete instance of the C1 theorem: submitting the same record twice
leaves exactly one hash entry and the repeat is answered `duplicate`. -/
theorem c1_witness :
    (∃ op ∈ ([IngestOp.clock c1Rec true 0, IngestOp.clock c1Rec true 1] :
        List IngestOp), opMentions (hashOf c1Rec) op) ∧
    rhCount (runOps CacheDb.init
        [IngestOp.clock c1Rec true 0, IngestOp.clock c1Rec true 1]).1
      (hashOf c1Rec) = 1 ∧
    (applyOp (runOps CacheDb.init [IngestOp.clock c1Rec true 0]).1
        (IngestOp.clock c1Rec true 1)).2.1.get? 0 =
      some RecStatus.duplicate :=
  ⟨⟨IngestOp.clock c1Rec true 0, by simp, rfl⟩,
    (c1_idempotent_ingestion
        [IngestOp.clock c1Rec true 0, IngestOp.clock c1Rec true 1]
        (hashOf c1Rec)).2.2.2.1
      ⟨IngestOp.clock c1Rec true 0, by simp, rfl⟩,
    (c1_idempotent_ingestion
        [IngestOp.clock c1Rec true 0, IngestOp.clock c1Rec true 1]
        (hashOf c1Rec)).2.2.2.2
      [IngestOp.clock c1Rec true 0] (IngestOp.clock c1Rec true 1) [] rfl
      ⟨IngestOp.clock c1Rec true 0, by simp, rfl⟩ 0 c1Rec rfl rfl⟩

/-! ## The upstream client retry loop

`erpnextService.safePost` runs `for (attempt = 1; attempt <= maxRetries;
attempt++)`, consulting `retryConfig.retryCondition` — retry on a missing
response (network error), status ≥ 500, or status 417 — and sleeping
`retryDelay * 2^(attempt-1)` before the next attempt.  The network is an
oracle `f` giving the outcome of each attempt; an error outcome carries
`error.response?.status` (`none` when there is no response at all). -/

/-- Outcome of one HTTP attempt. -/
inductive HttpOutcome
  | ok
  | err (status : Option Nat)
deriving DecidableEq

/-- `retryConfig.retryCondition`:
`!error.response || error.response.status >= 500 || error.response.status === 417`. -/
def retryCondition : Option Nat → Bool
  | none => true
  | some s => decide (500 ≤ s) || decide (s = 417)

/-- The observable result of a `safePost` run: the returned success flag
and failure status, how many attempts were dispatched, and the backoff
delays slept between them. -/
structure SPRun where
  success : Bool
  status : Option Nat
  attemptsMade : Nat
  delays : List Nat
deriving DecidableEq

/-- The attempt loop of `safePost`, from attempt number `attempt` with the
remaining loop iterations as fuel (the loop itself runs while
`attempt <= maxRetries`, so the fuel-0 branch is unreachable from
`safePost`). -/
def safePostGo (retryDelay maxRetries : Nat) (f : Nat → HttpOutcome)
    (attempt : Nat) : Nat → SPRun
  | 0 => { success := false, status := none, attemptsMade := 0, delays := [] }
  | fuel + 1 =>
    match f attempt with
    | .ok =>
      { success := true, status := none, attemptsMade := attempt, delays := [] }
    | .err s =>
      if decide (attempt < maxRetries) && retryCondition s then
        let rest := safePostGo retryDelay maxRetries f (attempt + 1) fuel
        { rest with delays := retryDelay * 2 ^ (attempt - 1) :: rest.delays }
      else
        { success := false, status := s, attemptsMade := attempt, delays := [] }

/-- `erpnextService.safePost` (src/services/erpnextService.js lines
39–106), abstracted over the network oracle. -/
def safePost (maxRetries retryDelay : Nat) (f : Nat → HttpOutcome) : SPRun :=
  safePostGo retryDelay maxRetries f 1 maxRetries

theorem safePostGo_spec (rd mr : Nat) (f : Nat → HttpOutcome) :
    ∀ (fuel attempt : Nat), 1 ≤ attempt → attempt ≤ mr →
      attempt + fuel = mr + 1 →
      (attempt ≤ (safePostGo rd mr f attempt fuel).attemptsMade ∧
        (safePostGo rd mr f attempt fuel).attemptsMade ≤ mr) ∧
      (∀ k, attempt ≤ k → k < (safePostGo rd mr f attempt fuel).attemptsMade →
        ∃ s, f k = .err s ∧ retryCondition s = true) ∧
      (safePostGo rd mr f attempt fuel).delays =
        (List.range ((safePostGo rd mr f attempt fuel).attemptsMade - attempt)).map
          (fun k => rd * 2 ^ (attempt - 1 + k)) ∧
      ((safePostGo rd mr f attempt fuel).success = true ↔
        f (safePostGo rd mr f attempt fuel).attemptsMade = .ok) ∧
      ((safePostGo rd mr f attempt fuel).success = false →
        ∃ s, f (safePostGo rd mr f attempt fuel).attemptsMade = .err s ∧
          (safePostGo rd mr f attempt fuel).status = s ∧
          ((safePostGo rd mr f attempt fuel).attemptsMade < mr →
            retryCondition s = false)) := by
  intro fuel
  induction fuel with
  | zero =>
    intro attempt h1 hle hsum
    omega
  | succ fuel ih =>
    intro attempt h1 hle hsum
    rcases hf : f attempt with _ | s
    · have hred : safePostGo rd mr f attempt (fuel + 1) =
          { success := true, status := none, attemptsMade := attempt,
            delays := [] } := by
        simp only [safePostGo, hf]
      rw [hred]
      refine ⟨⟨Nat.le_refl _, hle⟩, ?_, by simp, ?_, ?_⟩
      · intro k hk1 hk2
        simp at hk2
        omega
      · exact ⟨fun _ => hf, fun _ => rfl⟩
      · intro hcontra
        simp at hcontra
    · rcases hcond : decide (attempt < mr) && retryCondition s with _ | _
      · have hstop : attempt < mr → retryCondition s = false := by
          intro hlt
          simp only [hlt, decide_True, Bool.true_and] at hcond
          exact hcond
        have hred : safePostGo rd mr f attempt (fuel + 1) =
            { success := false, status := s, attemptsMade := attempt,
              delays := [] } := by
          simp only [safePostGo, hf, hcond, Bool.false_eq_true, if_false]
        rw [hred]
        refine ⟨⟨Nat.le_refl _, hle⟩, ?_, by simp, ?_, ?_⟩
        · intro k hk1 hk2
          simp at hk2
          omega
        · exact ⟨fun hcontra => absurd hcontra (by simp),
            fun hcontra => absurd (hf.symm.trans hcontra) (by simp)⟩
        · intro _
          exact ⟨s, hf, rfl, hstop⟩
      · have hboth : attempt < mr ∧ retryCondition s = true := by
          have h := hcond
          simp only [Bool.and_eq_true, decide_eq_true_eq] at h
          exact h
        obtain ⟨hlt, hrc⟩ := hboth
        obtain ⟨⟨iha, ihb⟩, ihk, ihd, ihs, ihe⟩ :=
          ih (attempt + 1) (by omega) (by omega) (by omega)
        have hatt : (safePostGo rd mr f attempt (fuel + 1)).attemptsMade =
            (safePostGo rd mr f (attempt + 1) fuel).attemptsMade := by
          simp only [safePostGo, hf, hcond, if_true]
        have hsucc : (safePostGo rd mr f attempt (fuel + 1)).success =
            (safePostGo rd mr f (attempt + 1) fuel).success := by
          simp only [safePostGo, hf, hcond, if_true]
        have hstat : (safePostGo rd mr f attempt (fuel + 1)).status =
            (safePostGo rd mr f (attempt + 1) fuel).status := by
          simp only [safePostGo, hf, hcond, if_true]
        have hdel : (safePostGo rd mr f attempt (fuel + 1)).delays =
            rd * 2 ^ (attempt - 1) ::
              (safePostGo rd mr f (attempt + 1) fuel).delays := by
          simp only [safePostGo, hf, hcond, if_true]
        refine ⟨⟨?_, ?_⟩, ?_, ?_, ?_, ?_⟩
        · rw [hatt]
          exact Nat.le_trans (Nat.le_succ attempt) iha
        · rw [hatt]
          exact ihb
        · intro k hk1 hk2
          rw [hatt] at hk2
          rcases Nat.eq_or_lt_of_le hk1 with hk0 | hk0
          · refine ⟨s, ?_, hrc⟩
            rw [← hk0]
            exact hf
          · exact ihk k hk0 hk2
        · have hn : (safePostGo rd mr f (attempt + 1) fuel).attemptsMade -
              attempt =
              ((safePostGo rd mr f (attempt + 1) fuel).attemptsMade -
                (attempt + 1)) + 1 := by omega
          rw [hdel, hatt, ihd, hn, List.range_succ_eq_map, List.map_cons,
            List.map_map, Nat.add_zero]
          congr 1
          exact List.map_congr_left fun k _ => by
            have harith : attempt + k = attempt - 1 + (k + 1) := by
              omega
            simp [Function.comp, harith]
        · rw [hsucc, hatt]
          exact ihs
        · rw [hsucc, hatt, hstat]
          exact ihe

/-- Claim C6: `safePost` retries a failed attempt exactly when the
failure is a network error (no response), a status ≥ 500, or status 417 —
any other 4xx ends the loop at once and is returned as a failure outcome
with that status — and it makes at most `retries` attempts in total,
sleeping `delay * 2^(attempt-1)` between attempt `attempt` and the next
one. -/
theorem c6_retry_policy (mr rd : Nat) (f : Nat → HttpOutcome)
    (hmr : 1 ≤ mr) :
    (1 ≤ (safePost mr rd f).attemptsMade ∧
      (safePost mr rd f).attemptsMade ≤ mr) ∧
    (∀ k, 1 ≤ k → k < (safePost mr rd f).attemptsMade →
      ∃ s, f k = .err s ∧ retryCondition s = true) ∧
    (safePost mr rd f).delays =
      (List.range ((safePost mr rd f).attemptsMade - 1)).map
        (fun k => rd * 2 ^ k) ∧
    ((safePost mr rd f).success = true ↔
      f (safePost mr rd f).attemptsMade = .ok) ∧
    ((safePost mr rd f).success = false →
      ∃ s, f (safePost mr rd f).attemptsMade = .err s ∧
        (safePost mr rd f).status = s ∧
        ((safePost mr rd f).attemptsMade < mr →
          retryCondition s = false)) := by
  obtain ⟨ha, hk, hd, hs, he⟩ :=
    safePostGo_spec rd mr f mr 1 (Nat.le_refl 1) hmr (by omega)
  refine ⟨ha, hk, ?_, hs, he⟩
  rw [safePost, hd]
  exact List.map_congr_left fun k _ => by simp

/-- The oracle for the C6 witness: attempt 1 gets a 503, attempt 2 a 400. -/
def c6F : Nat → HttpOutcome :=
  fun i => if i = 1 then .err (some 503) else .err (some 400)

/-- Concrete instance of the C6 theorem at three allowed attempts with a
retryable 503 followed by a terminal 400. -/
theorem c6_witness :
    1 ≤ 3 ∧
    ((1 ≤ (safePost 3 1000 c6F).attemptsMade ∧
        (safePost 3 1000 c6F).attemptsMade ≤ 3) ∧
      (∀ k, 1 ≤ k → k < (safePost 3 1000 c6F).attemptsMade →
        ∃ s, c6F k = .err s ∧ retryCondition s = true) ∧
      (safePost 3 1000 c6F).delays =
        (List.range ((safePost 3 1000 c6F).attemptsMade - 1)).map
          (fun k => 1000 * 2 ^ k) ∧
      ((safePost 3 1000 c6F).success = true ↔
        c6F (safePost 3 1000 c6F).attemptsMade = .ok) ∧
      ((safePost 3 1000 c6F).success = false →
        ∃ s, c6F (safePost 3 1000 c6F).attemptsMade = .err s ∧
          (safePost 3 1000 c6F).status = s ∧
          ((safePost 3 1000 c6F).attemptsMade < 3 →
            retryCondition s = false))) :=
  ⟨by decide, c6_retry_policy 3 1000 c6F (by decide)⟩

/-! ## The forwarder scheduler (SyncService)

`SyncService.start` calls `this.syncPendingRecords()` without awaiting it
and installs `setInterval(() => this.syncPendingRecords(), syncInterval)`;
`triggerSync` calls it too.  `syncPendingRecords` is `async` and awaits
storage and upstream I/O (`getPendingAttendance`, `submitBatchCheckin`,
`markAttendanceSynced`), so an invocation stays in flight across timer
ticks; its only guard is `if (!this.isRunning) return` — nothing prevents
a second invocation from running while one is still awaiting.  The model
is the event-loop interleaving: an invocation becomes an active drain
once it passes the `isRunning` guard and stays active until its
`drainFinish` event; the timer can only fire while installed. -/

/-- Scheduler-visible state of the sync service: the `isRunning` flag,
whether the interval timer is installed, and how many
`syncPendingRecords` invocations are currently in flight. -/
structure SyncSvcState where
  isRunning : Bool
  timerSet : Bool
  activeDrains : Nat
deriving DecidableEq

/-- The state of the freshly constructed singleton. -/
def SyncSvcState.init : SyncSvcState :=
  { isRunning := false, timerSet := false, activeDrains := 0 }

/-- Events the event loop can deliver to the service. -/
inductive SyncEvt
  | startCall
  | stopCall
  | timerTick
  | triggerCall
  | drainFinish
deriving DecidableEq

/-- One scheduler step; `none` marks events that cannot occur in the
given state (a tick of an uninstalled timer, a finish with no drain in
flight). -/
def syncStep (s : SyncSvcState) : SyncEvt → Option SyncSvcState
  | .startCall =>
    if s.isRunning then some s
    else some { isRunning := true, timerSet := true,
                activeDrains := s.activeDrains + 1 }
  | .stopCall =>
    if s.isRunning then
      some { s with isRunning := false, timerSet := false }
    else some s
  | .timerTick =>
    if s.timerSet then
      some (if s.isRunning then
        { s with activeDrains := s.activeDrains + 1 }
      else s)
    else none
  | .triggerCall =>
    if s.isRunning then
      some { s with activeDrains := s.activeDrains + 1 }
    else some s
  | .drainFinish =>
    if 0 < s.activeDrains then
      some { s with activeDrains := s.activeDrains - 1 }
    else none

/-- Run a sequence of scheduler events. -/
def runSync : SyncSvcState → List SyncEvt → Option SyncSvcState
  | s, [] => some s
  | s, e :: es =>
    match syncStep s e with
    | none => none
    | some s' => runSync s' es

/-- Claim C7: after `start()`, a single timer tick delivered while the
initial drain is still awaiting the upstream puts two concurrent
`syncPendingRecords` invocations in flight — the code has no overlap
guard, so the claimed mutual exclusion of drain cycles does not hold. -/
theorem c7_overlapping_drains :
    runSync SyncSvcState.init [SyncEvt.startCall, SyncEvt.timerTick] =
      some { isRunning := true, timerSet := true, activeDrains := 2 } ∧
    2 ≤ ((runSync SyncSvcState.init
        [SyncEvt.startCall, SyncEvt.timerTick]).getD
      SyncSvcState.init).activeDrains := by
  exact ⟨rfl, by decide⟩

/-! ## Rotating-secret JWT verification (src/unnamed/part_008)

`verify` tries `jwt.verify` against `[JWT_SECRET, JWT_SECRET_OLD].filter(Boolean)`
in order; if no secret verifies it throws `INVALID_TOKEN`; if the secret
used is not the current one AND `GRACE_DAYS` is truthy AND
`Date.now() - iat*1000 > GRACE_DAYS*86400000` it throws
`TOKEN_NEEDS_REFRESH`; otherwise it returns the decoded payload.  A token
is modelled by the secret it was signed with and its `iat`/`exp` claims
(seconds); `jwt.verify` succeeds when the secret matches and the token is
unexpired at the clock second `now / 1000`. -/

/-- The environment configuration the module reads. -/
structure JwtCfg where
  currentSecret : String
  oldSecret : Option String
  graceDays : Nat
deriving DecidableEq

/-- A signed token: the signing secret and the registered time claims. -/
structure JwtTok where
  secret : String
  iat : Nat
  exp : Nat
deriving DecidableEq

/-- `JWT_SECRETS = [JWT_SECRET, JWT_SECRET_OLD].filter(Boolean)`. -/
def jwtSecrets (cfg : JwtCfg) : List String :=
  ([some cfg.currentSecret, cfg.oldSecret].filterMap id).filter
    (fun s => !(s = ""))

/-- `jwt.verify(token, secret)` outcome: signature matches and the token
is unexpired. -/
def jwtVerifyOk (tok : JwtTok) (secret : String) (nowMs : Nat) : Bool :=
  (tok.secret == secret) && decide (nowMs / 1000 < tok.exp)

/-- The three observable outcomes of `verify`. -/
inductive VerifyResult
  | ok (tok : JwtTok)
  | invalidToken
  | needsRefresh
deriving DecidableEq

/-- `exports.verify` from src/unnamed/part_008. -/
def verify (cfg : JwtCfg) (tok : JwtTok) (nowMs : Nat) : VerifyResult :=
  match (jwtSecrets cfg).find? (fun s => jwtVerifyOk tok s nowMs) with
  | none => .invalidToken
  | some secretUsed =>
    if secretUsed ≠ cfg.currentSecret ∧ cfg.graceDays ≠ 0 ∧
        (nowMs : Int) - (tok.iat : Int) * 1000 >
          (cfg.graceDays : Int) * 86400000 then
      .needsRefresh
    else .ok tok

/-- Claim C9 (counterexample): with the grace window at its default of 0,
a token signed with the previous secret and older than any window (iat 0,
verified about 31 years later) is still accepted — `GRACE_DAYS && ...` is
falsy at 0, so 0 disables the age check rather than the acceptance of
previous-secret tokens. -/
theorem c9_counterexample :
    verify { currentSecret := "new", oldSecret := some "old", graceDays := 0 }
        { secret := "old", iat := 0, exp := 10000000000 } 1000000000000 =
      .ok { secret := "old", iat := 0, exp := 10000000000 } ∧
    ("old" : String) ≠ "new" := by
  exact ⟨rfl, by decide⟩

/-- Claim C9 (amended): for an unexpired token signed with the configured
previous secret (and not with the current one): when the grace window is
positive, `verify` accepts it exactly while its age is within
`graceDays` days and rejects it with `needsRefresh` once the window has
passed; when the grace window is 0 (the default) the age check is
disabled and the token is accepted regardless of age. -/
theorem c9_amended_grace_window (cfg : JwtCfg) (tok : JwtTok) (now : Nat)
    (hold : cfg.oldSecret = some tok.secret)
    (hne : tok.secret ≠ cfg.currentSecret)
    (hnem : tok.secret ≠ "")
    (hexp : now / 1000 < tok.exp) :
    (cfg.graceDays = 0 → verify cfg tok now = .ok tok) ∧
    (0 < cfg.graceDays →
      ((cfg.graceDays : Int) * 86400000 <
          (now : Int) - (tok.iat : Int) * 1000 →
        verify cfg tok now = .needsRefresh) ∧
      ((now : Int) - (tok.iat : Int) * 1000 ≤
          (cfg.graceDays : Int) * 86400000 →
        verify cfg tok now = .ok tok)) := by
  have hcurfail : jwtVerifyOk tok cfg.currentSecret now = false := by
    simp [jwtVerifyOk, hne]
  have hselfok : jwtVerifyOk tok tok.secret now = true := by
    simp [jwtVerifyOk, hexp]
  have hfind : (jwtSecrets cfg).find? (fun s => jwtVerifyOk tok s now) =
      some tok.secret := by
    unfold jwtSecrets
    rw [hold]
    by_cases hc : cfg.currentSecret = "" <;>
      simp [hc, List.filterMap, List.filter_cons, hnem, List.find?_cons,
        hcurfail, hselfok]
  refine ⟨fun h0 => ?_, fun hpos => ⟨fun hage => ?_, fun hage => ?_⟩⟩
  · unfold verify
    rw [hfind]
    exact if_neg (fun hc => hc.2.1 h0)
  · unfold verify
    rw [hfind]
    exact if_pos ⟨hne, by omega, hage⟩
  · unfold verify
    rw [hfind]
    exact if_neg (fun hc => absurd hc.2.2 (by omega))

/-- Concrete instances of the amended C9 theorem: grace 0 accepts an
arbitrarily old previous-secret token; grace 2 days rejects a 3-day-old
one with `needsRefresh` and accepts a 1-day-old one. -/
theorem c9_witness :
    verify { currentSecret := "new", oldSecret := some "old", graceDays := 0 }
        { secret := "old", iat := 0, exp := 10000000000 } 999999999999 =
      .ok { secret := "old", iat := 0, exp := 10000000000 } ∧
    verify { currentSecret := "new", oldSecret := some "old", graceDays := 2 }
        { secret := "old", iat := 0, exp := 10000000000 } 259200000 =
      .needsRefresh ∧
    verify { currentSecret := "new", oldSecret := some "old", graceDays := 2 }
        { secret := "old", iat := 0, exp := 10000000000 } 86400000 =
      .ok { secret := "old", iat := 0, exp := 10000000000 } :=
  ⟨(c9_amended_grace_window
      { currentSecret := "new", oldSecret := some "old", graceDays := 0 }
      { secret := "old", iat := 0, exp := 10000000000 } 999999999999
      rfl (by decide) (by decide) (by decide)).1 rfl,
    ((c9_amended_grace_window
      { currentSecret := "new", oldSecret := some "old", graceDays := 2 }
      { secret := "old", iat := 0, exp := 10000000000 } 259200000
      rfl (by decide) (by decide) (by decide)).2 (by decide)).1 (by decide),
    ((c9_amended_grace_window
      { currentSecret := "new", oldSecret := some "old", graceDays := 2 }
      { secret := "old", iat := 0, exp := 10000000000 } 86400000
      rfl (by decide) (by decide) (by decide)).2 (by decide)).2 (by decide)⟩

/-! ## The session authority (SessionManager)

`SessionManager.createTokens` stores the session data under
`session:<id>` and then calls `addUserSession`, which `sAdd`s the id to
the Redis set `user_sessions:<userId>`, reads the set back with
`sMembers` and, when its size exceeds `maxConcurrentSessions`, terminates
`slice(0, size - max)` of it with reason `concurrent_limit_exceeded`.
`terminateSession` blacklists both of the session's tokens, marks the
data inactive and `sRem`s the id.  The per-user set is modelled as an
insertion-ordered list: the sets stay tiny (at most `max + 1` members),
so Redis keeps them in listpack encoding, whose `sMembers` iteration
order is insertion order — which is what makes `slice(0, …)` pick the
oldest sessions.  Token signatures and TTLs are orthogonal to the claim
and elided: `validateToken`'s session checks (blacklist and `isActive`)
are what the claim is about. -/

/-- The JSON blob stored under `session:<id>` (the fields the claim
touches). -/
structure SessionData where
  userId : String
  deviceId : String
  isActive : Bool
  createdAt : Nat
  terminationReason : Option String
deriving DecidableEq

/-- A bearer token, identified by its session binding and kind. -/
structure SessTok where
  sessionId : String
  kind : String
deriving DecidableEq

/-- The Redis state the session manager keeps: session blobs, per-user
member lists, and the token blacklist. -/
structure SessMgrState where
  sessions : List (String × SessionData)
  userSessions : List (String × List String)
  blacklist : List SessTok
deriving DecidableEq

/-- Empty store. -/
def SessMgrState.init : SessMgrState :=
  { sessions := [], userSessions := [], blacklist := [] }

/-- Key-value lookup (`GET`). -/
def lookupAssoc {α : Type} (l : List (String × α)) (k : String) : Option α :=
  (l.find? (fun p => p.1 = k)).map (·.2)

/-- Key-value write (`SET`/`setEx`): overwrite in place, or append a new
key. -/
def setAssoc {α : Type} (l : List (String × α)) (k : String) (v : α) :
    List (String × α) :=
  if l.any (fun p => p.1 = k) then
    l.map (fun p => if p.1 = k then (k, v) else p)
  else l ++ [(k, v)]

/-- The members of `user_sessions:<uid>` in insertion order. -/
def members (st : SessMgrState) (uid : String) : List String :=
  (lookupAssoc st.userSessions uid).getD []

/-- `SessionManager.terminateSession`: blacklist both tokens, mark the
data inactive with the reason, remove the id from the user's set; a
missing session is a no-op returning `false`. -/
def terminateSession (st : SessMgrState) (sid : String) (reason : String) :
    SessMgrState :=
  match lookupAssoc st.sessions sid with
  | none => st
  | some sd =>
    { sessions := setAssoc st.sessions sid
        { sd with isActive := false, terminationReason := some reason },
      userSessions := setAssoc st.userSessions sd.userId
        ((members st sd.userId).filter (fun x => !(x = sid))),
      blacklist := ⟨sid, "access"⟩ :: ⟨sid, "refresh"⟩ :: st.blacklist }

/-- `SessionManager.addUserSession`: `sAdd`, then read the set and
terminate the first `size - max` members when over the limit. -/
def addUserSession (st : SessMgrState) (userId sid : String)
    (maxConc : Nat) : SessMgrState :=
  let members1 := if sid ∈ members st userId then members st userId
    else members st userId ++ [sid]
  let st1 := { st with
    userSessions := setAssoc st.userSessions userId members1 }
  if maxConc < members1.length then
    (members1.take (members1.length - maxConc)).foldl
      (fun s x => terminateSession s x "concurrent_limit_exceeded") st1
  else st1

/-- `SessionManager.createTokens`: store the fresh session as active,
then `addUserSession` (the session id comes from `crypto.randomBytes`,
modelled as a parameter whose freshness is a hypothesis). -/
def newSessionData (userId deviceId : String) (now : Nat) : SessionData :=
  { userId := userId, deviceId := deviceId, isActive := true,
    createdAt := now, terminationReason := none }

def createTokens (st : SessMgrState) (userId deviceId sid : String)
    (now maxConc : Nat) : SessMgrState :=
  addUserSession
    { st with
      sessions := setAssoc st.sessions sid (newSessionData userId deviceId now) }
    userId sid maxConc

/-- The session checks of `SessionManager.validateToken`: not
blacklisted, and the bound session exists and is active. -/
def validateTokenOk (st : SessMgrState) (tok : SessTok) : Bool :=
  !(st.blacklist.contains tok) &&
    (match lookupAssoc st.sessions tok.sessionId with
     | some sd => sd.isActive
     | none => false)

/-- Freshness of a generated session id and clock value against a state:
the id collides with no stored session and the clock is past every
stored creation time. -/
def freshFor (st : SessMgrState) (sid : String) (now : Nat) : Bool :=
  st.sessions.all (fun p => !(p.1 = sid) && decide (p.2.createdAt < now))

/-- Number of active sessions a subject currently has in the store. -/
def activeCount (st : SessMgrState) (uid : String) : Nat :=
  (st.sessions.filter (fun p => (p.2.userId == uid) && p.2.isActive)).length

/-! ### Assoc-store lemmas -/

theorem lookupAssoc_append_self {α : Type} (l : List (String × α))
    (k : String) (v : α) (h : l.any (fun p => p.1 = k) = false) :
    lookupAssoc (l ++ [(k, v)]) k = some v := by
  induction l with
  | nil => simp [lookupAssoc, List.find?]
  | cons a t ih =>
    simp only [List.any_cons, Bool.or_eq_false_iff] at h
    obtain ⟨ha, ht⟩ := h
    simp only [List.cons_append, lookupAssoc, List.find?_cons] at ih ⊢
    rw [ha]
    exact ih ht

theorem lookupAssoc_append_other {α : Type} (l : List (String × α))
    (k k' : String) (v : α) (h : k' ≠ k) :
    lookupAssoc (l ++ [(k, v)]) k' = lookupAssoc l k' := by
  induction l with
  | nil =>
    have hk : ¬(k = k') := fun hh => h hh.symm
    simp [lookupAssoc, List.find?, hk]
  | cons a t ih =>
    simp only [List.cons_append, lookupAssoc, List.find?_cons] at ih ⊢
    rcases ha : (decide (a.1 = k') : Bool) with _ | _
    · exact ih
    · rfl

theorem lookupAssoc_update_self {α : Type} (l : List (String × α))
    (k : String) (v : α) (h : l.any (fun p => p.1 = k) = true) :
    lookupAssoc (l.map (fun p => if p.1 = k then (k, v) else p)) k =
      some v := by
  induction l with
  | nil => cases h
  | cons a t ih =>
    by_cases ha : a.1 = k
    · simp [lookupAssoc, List.find?_cons, ha]
    · simp only [List.any_cons, Bool.or_eq_true] at h
      rcases h with h | h
      · exact absurd (of_decide_eq_true h) ha
      · simp only [List.map_cons, if_neg ha, lookupAssoc, List.find?_cons]
        rcases hak : (decide (a.1 = k) : Bool) with _ | _
        · exact ih h
        · exact absurd (of_decide_eq_true hak) ha

theorem lookupAssoc_update_other {α : Type} (l : List (String × α))
    (k k' : String) (v : α) (h : k' ≠ k) :
    lookupAssoc (l.map (fun p => if p.1 = k then (k, v) else p)) k' =
      lookupAssoc l k' := by
  induction l with
  | nil => rfl
  | cons a t ih =>
    by_cases ha : a.1 = k
    · have hk : ¬((k : String) = k') := fun hh => h hh.symm
      have ha' : ¬(a.1 = k') := by rw [ha]; exact hk
      simp [lookupAssoc, List.find?_cons, ha, hk, ha'] at ih ⊢
      exact ih
    · simp only [List.map_cons, if_neg ha, lookupAssoc, List.find?_cons]
      rcases hak : (decide (a.1 = k') : Bool) with _ | _
      · exact ih
      · rfl

theorem lookupAssoc_set_self {α : Type} (l : List (String × α))
    (k : String) (v : α) :
    lookupAssoc (setAssoc l k v) k = some v := by
  unfold setAssoc
  rcases hany : l.any (fun p => p.1 = k) with _ | _
  · rw [if_neg Bool.false_ne_true]
    exact lookupAssoc_append_self l k v hany
  · rw [if_pos rfl]
    exact lookupAssoc_update_self l k v hany

theorem lookupAssoc_set_other {α : Type} (l : List (String × α))
    (k k' : String) (v : α) (h : k' ≠ k) :
    lookupAssoc (setAssoc l k v) k' = lookupAssoc l k' := by
  unfold setAssoc
  rcases hany : l.any (fun p => p.1 = k) with _ | _
  · rw [if_neg Bool.false_ne_true]
    exact lookupAssoc_append_other l k k' v h
  · rw [if_pos rfl]
    exact lookupAssoc_update_other l k k' v h

theorem keys_set_of_present {α : Type} (l : List (String × α))
    (k : String) (v : α) (h : l.any (fun p => p.1 = k) = true) :
    (setAssoc l k v).map (·.1) = l.map (·.1) := by
  unfold setAssoc
  rw [if_pos h, List.map_map]
  exact List.map_congr_left fun p _ => by
    by_cases hp : p.1 = k <;> simp [Function.comp, hp]

theorem keys_set_of_absent {α : Type} (l : List (String × α))
    (k : String) (v : α) (h : l.any (fun p => p.1 = k) = false) :
    (setAssoc l k v).map (·.1) = l.map (·.1) ++ [k] := by
  unfold setAssoc
  rw [if_neg (by rw [h]; exact Bool.false_ne_true)]
  simp

theorem lookupAssoc_mem {α : Type} (l : List (String × α)) (k : String)
    (v : α) (h : lookupAssoc l k = some v) : (k, v) ∈ l := by
  unfold lookupAssoc at h
  rcases hf : l.find? (fun p => p.1 = k) with _ | p
  · rw [hf] at h; cases h
  · rw [hf] at h
    have hp := List.find?_some hf
    have hmem := List.mem_of_find?_eq_some hf
    have hk : p.1 = k := of_decide_eq_true hp
    have hv : p.2 = v := by injection h
    rw [← hk, ← hv]
    exact hmem

theorem lookupAssoc_eq_none_of_fresh {α : Type} (l : List (String × α))
    (k : String) (h : l.all (fun p => !(p.1 = k)) = true) :
    lookupAssoc l k = none := by
  unfold lookupAssoc
  rw [List.find?_eq_none.mpr]
  · rfl
  · intro p hp
    have := List.all_eq_true.mp h p hp
    simp at this
    simp [this]

/-! ### The session-store invariant

Reachable states keep: distinct session keys; every per-user member list
within the cap, duplicate-free, sorted by creation time, and agreeing
exactly with the active sessions of that user. -/

def SMInv (maxConc : Nat) (st : SessMgrState) : Prop :=
  (st.sessions.map (·.1)).Nodup ∧
  (∀ uid, (members st uid).length ≤ maxConc) ∧
  (∀ uid, (members st uid).Nodup) ∧
  (∀ uid sid, sid ∈ members st uid →
    ∃ sd, lookupAssoc st.sessions sid = some sd ∧ sd.userId = uid ∧
      sd.isActive = true) ∧
  (∀ sid sd, lookupAssoc st.sessions sid = some sd → sd.isActive = true →
    sid ∈ members st sd.userId) ∧
  (∀ uid, (members st uid).Pairwise (fun a b =>
    ∀ sda sdb, lookupAssoc st.sessions a = some sda →
      lookupAssoc st.sessions b = some sdb →
      sda.createdAt < sdb.createdAt))

theorem SMInv_init (maxConc : Nat) : SMInv maxConc SessMgrState.init := by
  refine ⟨List.nodup_nil, fun uid => Nat.zero_le _, fun uid => List.nodup_nil,
    fun uid sid hmem => absurd hmem (List.not_mem_nil sid),
    fun sid sd hl _ => ?_, fun uid => List.Pairwise.nil⟩
  cases hl

theorem freshFor_spec (st : SessMgrState) (sid : String) (now : Nat)
    (h : freshFor st sid now = true) :
    ∀ p ∈ st.sessions, ¬(p.1 = sid) ∧ p.2.createdAt < now := by
  intro p hp
  have hh := List.all_eq_true.mp h p hp
  simpa using hh

theorem fresh_lookup_none (st : SessMgrState) (sid : String) (now : Nat)
    (h : freshFor st sid now = true) :
    lookupAssoc st.sessions sid = none := by
  apply lookupAssoc_eq_none_of_fresh
  exact List.all_eq_true.mpr fun p hp => by
    simp [(freshFor_spec st sid now h p hp).1]

theorem fresh_any_false (st : SessMgrState) (sid : String) (now : Nat)
    (h : freshFor st sid now = true) :
    st.sessions.any (fun p => p.1 = sid) = false := by
  rcases hany : st.sessions.any (fun p => p.1 = sid) with _ | _
  · rfl
  · obtain ⟨p, hp, hpk⟩ := List.any_eq_true.mp hany
    exact absurd (of_decide_eq_true hpk)
      ((freshFor_spec st sid now h p hp).1)

theorem fresh_createdAt_lt (st : SessMgrState) (sid : String) (now : Nat)
    (h : freshFor st sid now = true) :
    ∀ k sd, lookupAssoc st.sessions k = some sd → sd.createdAt < now := by
  intro k sd hl
  exact (freshFor_spec st sid now h (k, sd) (lookupAssoc_mem _ _ _ hl)).2

theorem lookup_of_mem_nodup {α : Type} (l : List (String × α))
    (hnd : (l.map (·.1)).Nodup) (k : String) (v : α) (hmem : (k, v) ∈ l) :
    lookupAssoc l k = some v := by
  induction l with
  | nil => cases hmem
  | cons a t ih =>
    rw [List.map_cons, List.nodup_cons] at hnd
    rcases List.mem_cons.mp hmem with h0 | hmem'
    · rw [← h0]
      simp [lookupAssoc, List.find?_cons]
    · have hk : ¬(a.1 = k) := by
        intro hak
        exact hnd.1 (hak ▸ (List.mem_map_of_mem (·.1) hmem'))
      simp only [lookupAssoc, List.find?_cons]
      rcases hd : (decide (a.1 = k) : Bool) with _ | _
      · exact ih hnd.2 hmem'
      · exact absurd (of_decide_eq_true hd) hk

/-- Bound the stored active-session count by the member list: with
distinct session keys, the keys of the active filter inject into the
member list. -/
theorem activeCount_le_of_inv (maxConc : Nat) (st : SessMgrState)
    (hInv : SMInv maxConc st) (uid : String) :
    activeCount st uid ≤ maxConc := by
  obtain ⟨hKeys, hCap, hNodup, _, hAct, _⟩ := hInv
  have hsub : ((st.sessions.filter
      (fun p => (p.2.userId == uid) && p.2.isActive)).map (·.1)) ⊆
      members st uid := by
    intro k hk
    obtain ⟨p, hpmem, hpk⟩ := List.mem_map.mp hk
    have hpfil := List.of_mem_filter hpmem
    have hpmem' := List.mem_of_mem_filter hpmem
    rw [Bool.and_eq_true] at hpfil
    have huid : p.2.userId = uid := by
      have := hpfil.1
      exact of_decide_eq_true (by simpa using this)
    have hlook : lookupAssoc st.sessions p.1 = some p.2 :=
      lookup_of_mem_nodup st.sessions hKeys p.1 p.2 hpmem'
    have := hAct p.1 p.2 hlook hpfil.2
    rw [huid] at this
    rw [← hpk]
    exact this
  have hnd : ((st.sessions.filter
      (fun p => (p.2.userId == uid) && p.2.isActive)).map (·.1)).Nodup := by
    have hs : (st.sessions.filter
        (fun p => (p.2.userId == uid) && p.2.isActive)).Sublist st.sessions :=
      List.filter_sublist st.sessions
    exact List.Nodup.sublist (List.Sublist.map _ hs) hKeys
  have hlen : ((st.sessions.filter
      (fun p => (p.2.userId == uid) && p.2.isActive)).map (·.1)).length ≤
      (members st uid).length :=
    List.Subperm.length_le (List.Nodup.subperm hnd hsub)
  rw [List.length_map] at hlen
  exact Nat.le_trans hlen (hCap uid)

theorem any_key_of_lookup {α : Type} (l : List (String × α)) (k : String)
    (v : α) (h : lookupAssoc l k = some v) :
    l.any (fun p => p.1 = k) = true :=
  List.any_eq_true.mpr ⟨(k, v), lookupAssoc_mem l k v h, by simp⟩

theorem nodup_append_single {α : Type} (l : List α) (a : α)
    (hnd : l.Nodup) (ha : a ∉ l) : (l ++ [a]).Nodup := by
  rw [List.nodup_append]
  exact ⟨hnd, List.nodup_singleton a,
    fun x hx hxa => ha ((List.mem_singleton.mp hxa) ▸ hx)⟩

theorem filter_ne_of_not_mem (l : List String) (a : String)
    (h : a ∉ l) : l.filter (fun x => !(x = a)) = l := by
  apply List.filter_eq_self.mpr
  intro x hx
  simp only [Bool.not_eq_true']
  exact decide_eq_false (fun hxa => h (hxa ▸ hx))

theorem members_sessions_update (st : SessMgrState)
    (s' : List (String × SessionData)) (u : String) :
    members { st with sessions := s' } u = members st u := rfl

/-- The intermediate state of `createTokens` after the session blob is
stored and the id `sAdd`ed, before any limit enforcement. -/
def ctAdded (st : SessMgrState) (uid did sid : String) (now : Nat) :
    SessMgrState :=
  { sessions := st.sessions ++ [(sid, newSessionData uid did now)],
    userSessions := setAssoc st.userSessions uid (members st uid ++ [sid]),
    blacklist := st.blacklist }

/-- `createTokens` either just adds the session (under the cap) or adds
it and terminates the head — the oldest member — of the subject's list. -/
theorem createTokens_reduce (st : SessMgrState) (uid did sid : String)
    (now maxConc : Nat)
    (hany : st.sessions.any (fun p => p.1 = sid) = false)
    (hsnm : sid ∉ members st uid)
    (hlen : (members st uid).length ≤ maxConc) :
    createTokens st uid did sid now maxConc =
      if maxConc < (members st uid).length + 1 then
        terminateSession (ctAdded st uid did sid now)
          ((members st uid).headD sid) "concurrent_limit_exceeded"
      else ctAdded st uid did sid now := by
  have hsessA : setAssoc st.sessions sid (newSessionData uid did now) =
      st.sessions ++ [(sid, newSessionData uid did now)] := by
    unfold setAssoc
    rw [hany, if_neg Bool.false_ne_true]
  have hm1 : (if sid ∈ members st uid then members st uid
      else members st uid ++ [sid]) = members st uid ++ [sid] := if_neg hsnm
  unfold createTokens addUserSession ctAdded
  simp only [members_sessions_update, hm1, hsessA, List.length_append,
    List.length_singleton]
  by_cases hover : maxConc < (members st uid).length + 1
  · rw [if_pos hover, if_pos hover]
    have h1 : (members st uid).length + 1 - maxConc = 1 := by omega
    rw [h1]
    have htake : (members st uid ++ [sid]).take 1 =
        [(members st uid).headD sid] := by
      cases hh : members st uid <;> simp
    rw [htake]
    rfl
  · rw [if_neg hover, if_neg hover]

/-- Adding a fresh session below the cap preserves the store invariant. -/
theorem ctAdded_inv (maxConc : Nat) (st : SessMgrState)
    (uid did sid : String) (now : Nat)
    (hInv : SMInv maxConc st) (hfresh : freshFor st sid now = true)
    (hlen1 : (members st uid).length + 1 ≤ maxConc) :
    SMInv maxConc (ctAdded st uid did sid now) := by
  obtain ⟨hKeys, hCap, hNodup, hMem, hAct, hSort⟩ := hInv
  have hanySid := fresh_any_false st sid now hfresh
  have hlookNone := fresh_lookup_none st sid now hfresh
  have hlt := fresh_createdAt_lt st sid now hfresh
  have hsidNotMem : ∀ u, sid ∉ members st u := by
    intro u hmem
    obtain ⟨sd, hl, _, _⟩ := hMem u sid hmem
    rw [hlookNone] at hl
    cases hl
  have hmemKey : ∀ u k, k ∈ members st u → k ≠ sid :=
    fun u k hk hksid => hsidNotMem u (hksid ▸ hk)
  have hsidNotKey : sid ∉ st.sessions.map (·.1) := by
    intro hmem
    obtain ⟨p, hp, hpk⟩ := List.mem_map.mp hmem
    exact (freshFor_spec st sid now hfresh p hp).1 hpk
  have hlook_self : lookupAssoc (ctAdded st uid did sid now).sessions sid =
      some (newSessionData uid did now) :=
    lookupAssoc_append_self _ _ _ hanySid
  have hlook_other : ∀ k, k ≠ sid →
      lookupAssoc (ctAdded st uid did sid now).sessions k =
        lookupAssoc st.sessions k :=
    fun k hk => lookupAssoc_append_other _ _ _ _ hk
  have hmem_self : members (ctAdded st uid did sid now) uid =
      members st uid ++ [sid] := by
    simp [members, ctAdded, lookupAssoc_set_self]
  have hmem_other : ∀ u, u ≠ uid →
      members (ctAdded st uid did sid now) u = members st u := by
    intro u hu
    simp [members, ctAdded, lookupAssoc_set_other st.userSessions uid u _ hu]
  refine ⟨?_, ?_, ?_, ?_, ?_, ?_⟩
  · show ((st.sessions ++ [(sid, newSessionData uid did now)]).map (·.1)).Nodup
    rw [List.map_append]
    exact nodup_append_single _ sid hKeys hsidNotKey
  · intro u
    by_cases hu : u = uid
    · subst hu
      rw [hmem_self, List.length_append, List.length_singleton]
      exact hlen1
    · rw [hmem_other u hu]
      exact hCap u
  · intro u
    by_cases hu : u = uid
    · rw [hu, hmem_self]
      exact nodup_append_single _ sid (hNodup uid) (hsidNotMem uid)
    · rw [hmem_other u hu]
      exact hNodup u
  · intro u k hk
    by_cases hu : u = uid
    · rw [hu] at hk ⊢
      rw [hmem_self] at hk
      rcases List.mem_append.mp hk with hk0 | hk1
      · have hkne := hmemKey uid k hk0
        obtain ⟨sd, hl, h1, h2⟩ := hMem uid k hk0
        exact ⟨sd, by rw [hlook_other k hkne]; exact hl, h1, h2⟩
      · have hk' : k = sid := List.mem_singleton.mp hk1
        subst hk'
        exact ⟨newSessionData uid did now, hlook_self, rfl, rfl⟩
    · rw [hmem_other u hu] at hk
      have hkne := hmemKey u k hk
      obtain ⟨sd, hl, h1, h2⟩ := hMem u k hk
      exact ⟨sd, by rw [hlook_other k hkne]; exact hl, h1, h2⟩
  · intro k sd hl hact
    by_cases hk : k = sid
    · subst hk
      rw [hlook_self] at hl
      injection hl with hsd
      have huid : sd.userId = uid := by rw [← hsd]; rfl
      rw [huid, hmem_self]
      exact List.mem_append_right _ (List.mem_singleton_self _)
    · rw [hlook_other k hk] at hl
      have hmem' := hAct k sd hl hact
      by_cases hu : sd.userId = uid
      · rw [hu] at hmem' ⊢
        rw [hmem_self]
        exact List.mem_append_left _ hmem'
      · rw [hmem_other _ hu]
        exact hmem'
  · intro u
    by_cases hu : u = uid
    · rw [hu, hmem_self, List.pairwise_append]
      refine ⟨?_, List.pairwise_singleton _ _, ?_⟩
      · refine List.Pairwise.imp_of_mem ?_ (hSort uid)
        intro a b ha hb hrel sda sdb hla hlb
        rw [hlook_other a (hmemKey uid a ha)] at hla
        rw [hlook_other b (hmemKey uid b hb)] at hlb
        exact hrel sda sdb hla hlb
      · intro a ha b hb
        have hb' : b = sid := List.mem_singleton.mp hb
        subst hb'
        intro sda sdb hla hlb
        rw [hlook_self] at hlb
        injection hlb with he
        rw [hlook_other a (hmemKey uid a ha)] at hla
        have hnow := hlt a sda hla
        rw [← he]
        exact hnow
    · rw [hmem_other u hu]
      refine List.Pairwise.imp_of_mem ?_ (hSort u)
      intro a b ha hb hrel sda sdb hla hlb
      rw [hlook_other a (hmemKey u a ha)] at hla
      rw [hlook_other b (hmemKey u b hb)] at hlb
      exact hrel sda sdb hla hlb

/-- Reduce `terminateSession` at a session that is present in the store. -/
theorem terminateSession_eq (st : SessMgrState) (s₀ reason : String)
    (sd : SessionData) (h : lookupAssoc st.sessions s₀ = some sd) :
    terminateSession st s₀ reason =
      { sessions := setAssoc st.sessions s₀
          { sd with isActive := false, terminationReason := some reason },
        userSessions := setAssoc st.userSessions sd.userId
          ((members st sd.userId).filter (fun x => !(x = s₀))),
        blacklist := ⟨s₀, "access"⟩ :: ⟨s₀, "refresh"⟩ :: st.blacklist } := by
  unfold terminateSession
  rw [h]

/-- A fresh session id is in no member list of an invariant state. -/
theorem fresh_not_mem (maxConc : Nat) (st : SessMgrState) (sid : String)
    (now : Nat) (hInv : SMInv maxConc st)
    (hfresh : freshFor st sid now = true) :
    ∀ u, sid ∉ members st u := by
  intro u hmem
  obtain ⟨sd, hl, _, _⟩ := hInv.2.2.2.1 u sid hmem
  rw [fresh_lookup_none st sid now hfresh] at hl
  cases hl

/-- Over the cap, terminating the head of the member list preserves the
invariant; the head is the subject's oldest active session, it ends up
inactive with reason `concurrent_limit_exceeded`, and its tokens no
longer validate. -/
theorem terminate_oldest_spec (maxConc : Nat) (st : SessMgrState)
    (uid did sid old : String) (tail : List String) (now : Nat)
    (hInv : SMInv maxConc st) (hfresh : freshFor st sid now = true)
    (hmem0 : members st uid = old :: tail)
    (hlenm : tail.length + 1 = maxConc) :
    ∃ sdo, lookupAssoc st.sessions old = some sdo ∧
      (∀ k sd, lookupAssoc st.sessions k = some sd → sd.isActive = true →
        sd.userId = uid → sdo.createdAt ≤ sd.createdAt) ∧
      SMInv maxConc (terminateSession (ctAdded st uid did sid now) old
        "concurrent_limit_exceeded") ∧
      members (terminateSession (ctAdded st uid did sid now) old
        "concurrent_limit_exceeded") uid = tail ++ [sid] ∧
      lookupAssoc (terminateSession (ctAdded st uid did sid now) old
        "concurrent_limit_exceeded").sessions old =
        some
          { sdo with
            isActive := false,
            terminationReason := some "concurrent_limit_exceeded" } ∧
      (∀ kind, validateTokenOk (terminateSession (ctAdded st uid did sid now)
        old "concurrent_limit_exceeded") ⟨old, kind⟩ = false) := by
  have hsnm := fresh_not_mem maxConc st sid now hInv hfresh
  obtain ⟨hKeys, hCap, hNodup, hMem, hAct, hSort⟩ := hInv
  have hanySid := fresh_any_false st sid now hfresh
  have hlt := fresh_createdAt_lt st sid now hfresh
  have hmemKey : ∀ u k, k ∈ members st u → k ≠ sid :=
    fun u k hk hksid => hsnm u (hksid ▸ hk)
  have hsidNotKey : sid ∉ st.sessions.map (·.1) := by
    intro hmem
    obtain ⟨p, hp, hpk⟩ := List.mem_map.mp hmem
    exact (freshFor_spec st sid now hfresh p hp).1 hpk
  have holdMem : old ∈ members st uid := by
    rw [hmem0]
    exact List.mem_cons_self _ _
  obtain ⟨sdo, hlookO, hOuid, hOact⟩ := hMem uid old holdMem
  have holdNeSid : old ≠ sid := hmemKey uid old holdMem
  have hsidNeOld : sid ≠ old := fun h => holdNeSid h.symm
  have hndCons : (old :: tail).Nodup := hmem0 ▸ hNodup uid
  have holdNotTail : old ∉ tail := (List.nodup_cons.mp hndCons).1
  have hndTail : tail.Nodup := (List.nodup_cons.mp hndCons).2
  have htailMem : ∀ k, k ∈ tail → k ∈ members st uid := by
    intro k hk
    rw [hmem0]
    exact List.mem_cons_of_mem _ hk
  have htailNeOld : ∀ k, k ∈ tail → k ≠ old :=
    fun k hk hko => holdNotTail (hko ▸ hk)
  have hsidNotTail : sid ∉ tail := fun h => hsnm uid (htailMem sid h)
  have hSortC : (old :: tail).Pairwise (fun a b => ∀ sda sdb,
      lookupAssoc st.sessions a = some sda →
      lookupAssoc st.sessions b = some sdb →
      sda.createdAt < sdb.createdAt) := by
    have h := hSort uid
    rw [hmem0] at h
    exact h
  have hNotOld : ∀ u k, u ≠ uid → k ∈ members st u → k ≠ old := by
    intro u k hu hk hko
    obtain ⟨sd, hl, h1, _⟩ := hMem u k hk
    rw [hko, hlookO] at hl
    injection hl with he
    exact hu (by rw [← h1, ← he]; exact hOuid)
  have hlook'_self : lookupAssoc (ctAdded st uid did sid now).sessions sid =
      some (newSessionData uid did now) :=
    lookupAssoc_append_self _ _ _ hanySid
  have hlook'_other : ∀ k, k ≠ sid →
      lookupAssoc (ctAdded st uid did sid now).sessions k =
        lookupAssoc st.sessions k :=
    fun k hk => lookupAssoc_append_other _ _ _ _ hk
  have hmem'_self : members (ctAdded st uid did sid now) uid =
      members st uid ++ [sid] := by
    simp [members, ctAdded, lookupAssoc_set_self]
  have hmem'_other : ∀ u, u ≠ uid →
      members (ctAdded st uid did sid now) u = members st u := by
    intro u hu
    simp [members, ctAdded, lookupAssoc_set_other st.userSessions uid u _ hu]
  have hlook'O : lookupAssoc (ctAdded st uid did sid now).sessions old =
      some sdo := by
    rw [hlook'_other old holdNeSid]
    exact hlookO
  have hKeys' : (((ctAdded st uid did sid now).sessions).map (·.1)).Nodup := by
    show ((st.sessions ++ [(sid, newSessionData uid did now)]).map (·.1)).Nodup
    rw [List.map_append]
    exact nodup_append_single _ sid hKeys hsidNotKey
  have hanyOld' : (ctAdded st uid did sid now).sessions.any
      (fun p => p.1 = old) = true :=
    any_key_of_lookup _ old sdo hlook'O
  have hOldest : ∀ k sd, lookupAssoc st.sessions k = some sd →
      sd.isActive = true → sd.userId = uid →
      sdo.createdAt ≤ sd.createdAt := by
    intro k sd hl hact huk
    have hk : k ∈ members st uid := by
      rw [← huk]
      exact hAct k sd hl hact
    rw [hmem0] at hk
    rcases List.mem_cons.mp hk with h0 | ht
    · rw [h0, hlookO] at hl
      injection hl with he
      rw [he]
    · have hp := (List.pairwise_cons.mp hSortC).1 k ht
      exact Nat.le_of_lt (hp sdo sd hlookO hl)
  have hTeq := terminateSession_eq (ctAdded st uid did sid now) old
    "concurrent_limit_exceeded" sdo hlook'O
  have hfilter2 : ((members (ctAdded st uid did sid now) uid).filter
      (fun x => !(x = old))) = tail ++ [sid] := by
    rw [hmem'_self, hmem0, List.filter_append, List.filter_cons]
    simp only [decide_True, Bool.not_true, Bool.false_eq_true, if_false]
    rw [filter_ne_of_not_mem tail old holdNotTail]
    simp [hsidNeOld]
  have hUS : setAssoc (ctAdded st uid did sid now).userSessions sdo.userId
      ((members (ctAdded st uid did sid now) sdo.userId).filter
        (fun x => !(x = old))) =
      setAssoc (ctAdded st uid did sid now).userSessions uid
        (tail ++ [sid]) := by
    rw [hOuid, hfilter2]
  rw [hUS] at hTeq
  have hlookT_old : lookupAssoc (terminateSession (ctAdded st uid did sid now)
      old "concurrent_limit_exceeded").sessions old =
      some
        { sdo with
          isActive := false,
          terminationReason := some "concurrent_limit_exceeded" } := by
    rw [hTeq]
    dsimp only
    exact lookupAssoc_set_self _ _ _
  have hlookT_other : ∀ k, k ≠ old →
      lookupAssoc (terminateSession (ctAdded st uid did sid now) old
        "concurrent_limit_exceeded").sessions k =
      lookupAssoc (ctAdded st uid did sid now).sessions k := by
    intro k hk
    rw [hTeq]
    dsimp only
    exact lookupAssoc_set_other _ _ _ _ hk
  have hmemT_self : members (terminateSession (ctAdded st uid did sid now)
      old "concurrent_limit_exceeded") uid = tail ++ [sid] := by
    rw [hTeq]
    dsimp only [members]
    rw [lookupAssoc_set_self]
    rfl
  have hmemT_other : ∀ u, u ≠ uid →
      members (terminateSession (ctAdded st uid did sid now) old
        "concurrent_limit_exceeded") u = members st u := by
    intro u hu
    rw [hTeq]
    dsimp only [members]
    rw [lookupAssoc_set_other _ uid u _ hu]
    exact hmem'_other u hu
  have hKeysT : (((terminateSession (ctAdded st uid did sid now) old
      "concurrent_limit_exceeded").sessions).map (·.1)).Nodup := by
    rw [hTeq]
    dsimp only
    rw [keys_set_of_present _ old _ hanyOld']
    exact hKeys'
  refine ⟨sdo, hlookO, hOldest, ⟨hKeysT, ?_, ?_, ?_, ?_, ?_⟩,
    hmemT_self, hlookT_old, ?_⟩
  · intro u
    by_cases hu : u = uid
    · rw [hu, hmemT_self, List.length_append, List.length_singleton]
      omega
    · rw [hmemT_other u hu]
      exact hCap u
  · intro u
    by_cases hu : u = uid
    · rw [hu, hmemT_self]
      exact nodup_append_single _ sid hndTail hsidNotTail
    · rw [hmemT_other u hu]
      exact hNodup u
  · intro u k hk
    by_cases hu : u = uid
    · rw [hu] at hk ⊢
      rw [hmemT_self] at hk
      rcases List.mem_append.mp hk with hk0 | hk1
      · have hkmem : k ∈ members st uid := htailMem k hk0
        obtain ⟨sd, hl, h1, h2⟩ := hMem uid k hkmem
        refine ⟨sd, ?_, h1, h2⟩
        rw [hlookT_other k (htailNeOld k hk0),
          hlook'_other k (hmemKey uid k hkmem)]
        exact hl
      · rw [List.mem_singleton.mp hk1]
        refine ⟨newSessionData uid did now, ?_, rfl, rfl⟩
        rw [hlookT_other sid hsidNeOld]
        exact hlook'_self
    · rw [hmemT_other u hu] at hk
      obtain ⟨sd, hl, h1, h2⟩ := hMem u k hk
      refine ⟨sd, ?_, h1, h2⟩
      rw [hlookT_other k (hNotOld u k hu hk), hlook'_other k (hmemKey u k hk)]
      exact hl
  · intro k sd hl hact
    by_cases hko : k = old
    · rw [hko, hlookT_old] at hl
      injection hl with he
      rw [← he] at hact
      simp at hact
    · rw [hlookT_other k hko] at hl
      by_cases hks : k = sid
      · rw [hks, hlook'_self] at hl
        injection hl with he
        have huid2 : sd.userId = uid := by rw [← he]; rfl
        rw [hks, huid2, hmemT_self]
        exact List.mem_append_right _ (List.mem_singleton_self _)
      · rw [hlook'_other k hks] at hl
        have hkmem := hAct k sd hl hact
        by_cases hus : sd.userId = uid
        · rw [hus] at hkmem ⊢
          rw [hmemT_self]
          rw [hmem0] at hkmem
          rcases List.mem_cons.mp hkmem with h0 | ht
          · exact absurd h0 hko
          · exact List.mem_append_left _ ht
        · rw [hmemT_other _ hus]
          exact hkmem
  · intro u
    by_cases hu : u = uid
    · rw [hu, hmemT_self, List.pairwise_append]
      refine ⟨?_, List.pairwise_singleton _ _, ?_⟩
      · refine List.Pairwise.imp_of_mem ?_ (List.pairwise_cons.mp hSortC).2
        intro a b ha hb hrel sda sdb hla hlb
        rw [hlookT_other a (htailNeOld a ha),
          hlook'_other a (hmemKey uid a (htailMem a ha))] at hla
        rw [hlookT_other b (htailNeOld b hb),
          hlook'_other b (hmemKey uid b (htailMem b hb))] at hlb
        exact hrel sda sdb hla hlb
      · intro a ha b hb sda sdb hla hlb
        have hb' := List.mem_singleton.mp hb
        rw [hb', hlookT_other sid hsidNeOld, hlook'_self] at hlb
        injection hlb with he
        rw [hlookT_other a (htailNeOld a ha),
          hlook'_other a (hmemKey uid a (htailMem a ha))] at hla
        have hnow := hlt a sda hla
        rw [← he]
        exact hnow
    · rw [hmemT_other u hu]
      refine List.Pairwise.imp_of_mem ?_ (hSort u)
      intro a b ha hb hrel sda sdb hla hlb
      rw [hlookT_other a (hNotOld u a hu ha),
        hlook'_other a (hmemKey u a ha)] at hla
      rw [hlookT_other b (hNotOld u b hu hb),
        hlook'_other b (hmemKey u b hb)] at hlb
      exact hrel sda sdb hla hlb
  · intro kind
    unfold validateTokenOk
    dsimp only
    rw [hlookT_old]
    simp

/-- C8: from any reachable session store (one satisfying the store
invariant, which the empty store satisfies and which this very theorem
shows every issue operation preserves), issuing tokens with a fresh
session id leaves the subject with at most `max_concurrent_sessions`
active sessions; below the cap nothing is terminated, and when the new
session exceeds the cap the terminated session is the subject's oldest
active one, marked inactive with reason `concurrent_limit_exceeded`, and
its tokens of both kinds no longer validate. -/
theorem c8_session_cap (maxConc : Nat) (st : SessMgrState)
    (uid did sid : String) (now : Nat)
    (hInv : SMInv maxConc st) (hfresh : freshFor st sid now = true)
    (hmax : 1 ≤ maxConc) :
    SMInv maxConc (createTokens st uid did sid now maxConc) ∧
    (∀ u, activeCount (createTokens st uid did sid now maxConc) u ≤
      maxConc) ∧
    ((members st uid).length < maxConc →
      createTokens st uid did sid now maxConc = ctAdded st uid did sid now) ∧
    ((members st uid).length = maxConc →
      ∃ old tail sdo,
        members st uid = old :: tail ∧
        lookupAssoc st.sessions old = some sdo ∧ sdo.isActive = true ∧
        (∀ k sd, lookupAssoc st.sessions k = some sd → sd.isActive = true →
          sd.userId = uid → sdo.createdAt ≤ sd.createdAt) ∧
        createTokens st uid did sid now maxConc =
          terminateSession (ctAdded st uid did sid now) old
            "concurrent_limit_exceeded" ∧
        lookupAssoc (createTokens st uid did sid now maxConc).sessions old =
          some
            { sdo with
              isActive := false,
              terminationReason := some "concurrent_limit_exceeded" } ∧
        members (createTokens st uid did sid now maxConc) uid =
          tail ++ [sid] ∧
        (∀ kind, validateTokenOk (createTokens st uid did sid now maxConc)
          ⟨old, kind⟩ = false)) := by
  have hsnm := fresh_not_mem maxConc st sid now hInv hfresh
  have hany := fresh_any_false st sid now hfresh
  have hred := createTokens_reduce st uid did sid now maxConc hany (hsnm uid)
    (hInv.2.1 uid)
  rcases Nat.lt_or_ge (members st uid).length maxConc with hlt | hge
  · have hcond : ¬ (maxConc < (members st uid).length + 1) := by omega
    rw [if_neg hcond] at hred
    have hInv' : SMInv maxConc (ctAdded st uid did sid now) :=
      ctAdded_inv maxConc st uid did sid now hInv hfresh (by omega)
    have hInvC : SMInv maxConc (createTokens st uid did sid now maxConc) := by
      rw [hred]
      exact hInv'
    exact ⟨hInvC, fun u => activeCount_le_of_inv maxConc _ hInvC u,
      fun _ => hred, fun heq => absurd heq (by omega)⟩
  · have heq : (members st uid).length = maxConc :=
      Nat.le_antisymm (hInv.2.1 uid) hge
    have hcond : maxConc < (members st uid).length + 1 := by omega
    rw [if_pos hcond] at hred
    have hne : members st uid ≠ [] := by
      intro h
      rw [h] at heq
      simp at heq
      omega
    obtain ⟨old, tail, hm⟩ := List.exists_cons_of_ne_nil hne
    have hlenm : tail.length + 1 = maxConc := by
      rw [hm] at heq
      simpa using heq
    obtain ⟨sdo, hlookO, hOldest, hInvT, hmemT, hlookT, hvalT⟩ :=
      terminate_oldest_spec maxConc st uid did sid old tail now hInv hfresh
        hm hlenm
    have hhead : (members st uid).headD sid = old := by
      rw [hm]
      rfl
    rw [hhead] at hred
    have hInvC : SMInv maxConc (createTokens st uid did sid now maxConc) := by
      rw [hred]
      exact hInvT
    have holdMem : old ∈ members st uid := by
      rw [hm]
      exact List.mem_cons_self _ _
    obtain ⟨sdo2, hlookO2, _, hOact2⟩ := hInv.2.2.2.1 uid old holdMem
    have hOact : sdo.isActive = true := by
      rw [hlookO] at hlookO2
      injection hlookO2 with he
      rw [he]
      exact hOact2
    refine ⟨hInvC, fun u => activeCount_le_of_inv maxConc _ hInvC u,
      fun hlt2 => absurd heq (by omega), fun _ => ?_⟩
    refine ⟨old, tail, sdo, hm, hlookO, hOact, hOldest, hred, ?_, ?_, ?_⟩
    · rw [hred]
      exact hlookT
    · rw [hred]
      exact hmemT
    · intro kind
      rw [hred]
      exact hvalT kind

/-- Concrete run of the session cap: with `max_concurrent_sessions = 1`,
issuing session `s1` and then `s2` for the same subject keeps the active
count at one and invalidates `s1`'s tokens. -/
theorem c8_witness :
    SMInv 1 SessMgrState.init ∧
    freshFor SessMgrState.init "s1" 5 = true ∧
    freshFor (createTokens SessMgrState.init "u" "d" "s1" 5 1) "s2" 9 =
      true ∧
    SMInv 1 (createTokens SessMgrState.init "u" "d" "s1" 5 1) ∧
    activeCount (createTokens (createTokens SessMgrState.init "u" "d" "s1"
      5 1) "u" "d" "s2" 9 1) "u" ≤ 1 ∧
    validateTokenOk (createTokens (createTokens SessMgrState.init "u" "d"
      "s1" 5 1) "u" "d" "s2" 9 1) ⟨"s1", "access"⟩ = false := by
  have happ1 := c8_session_cap 1 SessMgrState.init "u" "d" "s1" 5
    (SMInv_init 1) rfl (by decide)
  have happ2 := c8_session_cap 1 (createTokens SessMgrState.init "u" "d"
    "s1" 5 1) "u" "d" "s2" 9 happ1.1 (by decide) (by decide)
  obtain ⟨old, tail, sdo, hm, _, _, _, _, _, _, hval⟩ :=
    happ2.2.2.2 (by decide)
  have hms : members (createTokens SessMgrState.init "u" "d" "s1" 5 1) "u" =
      ["s1"] := by decide
  rw [hms] at hm
  injection hm with h1 h2
  have hv := hval "access"
  rw [← h1] at hv
  exact ⟨SMInv_init 1, rfl, by decide, happ1.1, happ2.2.1 "u", hv⟩

end AttendanceAPI
